import Mathlib

/-!
Verification of the voting and aggregate-score subsystem of a
discussion-forum backend (posts, comments, communities, voting, karma).

The definitions below are a shallow embedding of the relevant route
handlers and models:
  * `Vote`, `Post`, `Comment`, `DB`   — the data model (src/models/Vote.js
    and the mongoose documents manipulated by the routes);
  * `voteCore`                        — the vote-transition logic shared
    verbatim by the post and comment vote handlers (the `voteChange`
    computation in src/routes/posts.js and routes/comments.js);
  * `votePost` / `voteComment`        — POST /api/posts/:id/vote and
    POST /api/comments/:id/vote;
  * `createPost` / `createComment`    — POST /api/posts and
    POST /api/posts/:id/comments (creation with author self-upvote);
  * `deletePost` / `deleteComment`    — DELETE /api/posts/:id and
    DELETE /api/comments/:id (cascade deletion);
  * `calculateKarma`                  — the karma helper in
    src/routes/users.js;
  * `handlerStep` / `runTwo`          — a small-step decomposition of the
    post vote handler at its `await` points, used to analyse interleavings
    of two concurrent requests (each `await`ed store operation is one
    atomic step; the document store enforces the unique (user, item)
    index on insert, as declared in src/models/Vote.js).

Mongoose documents become structures; collections become lists;
`findOne`/`findById` become `List.find?`; `doc.save()` on an existing
document replaces that document in place (`updateFirst`); `doc.remove()`
deletes it (`removeFirst`); `deleteMany` is a filter.  Object ids are
modelled as naturals; creation takes the freshly generated id and the
clock as explicit arguments.
-/

/-- The `itemType` discriminator of a Vote (enum ['post', 'comment']). -/
inductive ItemKind where
  | post
  | comment
deriving DecidableEq, Repr

/-- A Vote document (src/models/Vote.js): voter, target item id, target
kind, and value.  The schema restricts `value` to the enum [-1, 1] and
puts a unique index on (user, item). -/
structure Vote where
  user : Nat
  item : Nat
  itemType : ItemKind
  value : Int
  createdAt : Nat
deriving DecidableEq, Repr

/-- A Post document: the fields the handlers under verification touch.
`votes` is the denormalized score field. -/
structure Post where
  id : Nat
  title : String
  content : String
  author : Nat
  community : String
  votes : Int
  createdAt : Nat
  isEdited : Bool
deriving DecidableEq, Repr

/-- A Comment document.  `post` is the parent post's id; `votes` is the
denormalized score field. -/
structure Comment where
  id : Nat
  content : String
  author : Nat
  post : Nat
  votes : Int
  createdAt : Nat
  isEdited : Bool
deriving DecidableEq, Repr

/-- The document store: one list per collection (communities only by
name, which is all the post-creation handler consults). -/
structure DB where
  posts : List Post
  comments : List Comment
  votes : List Vote
  communities : List String
deriving DecidableEq, Repr

/-- The empty store. -/
def DB.empty : DB := { posts := [], comments := [], votes := [], communities := [] }

/-- Replace the first element satisfying `p` by its image under `g`
(models `doc.field = x; await doc.save()` on a document obtained from a
`findOne`/`findById`). -/
def updateFirst (p : α → Bool) (g : α → α) : List α → List α
  | [] => []
  | x :: xs => if p x then g x :: xs else x :: updateFirst p g xs

/-- Remove the first element satisfying `p` (models `doc.remove()`). -/
def removeFirst (p : α → Bool) : List α → List α
  | [] => []
  | x :: xs => if p x then xs else x :: removeFirst p xs

/-- Matcher for `Vote.findOne (user, item, itemType)`. -/
def voteKey (u i : Nat) (k : ItemKind) (v : Vote) : Bool :=
  decide (v.user = u ∧ v.item = i ∧ v.itemType = k)

/-- Matcher for `Post.findById`. -/
def postKey (i : Nat) (p : Post) : Bool :=
  decide (p.id = i)

/-- Matcher for `Comment.findById`. -/
def commentKey (i : Nat) (c : Comment) : Bool :=
  decide (c.id = i)

/-- The vote-transition logic, written identically in the two vote
handlers (posts.js lines 392-423 and comments.js lines 106-137): look up
the caller's existing vote, then
  * existing vote, requested 0     — `voteChange = 0 - value`, remove it;
  * existing vote, requested t ≠ 0 — `voteChange = t - value`, set its
    value to t and save;
  * no vote, requested t ≠ 0       — insert a new Vote of value t,
    `voteChange = t`;
  * no vote, requested 0           — nothing, `voteChange = 0`.
Returns `(voteChange, updated vote collection)`. -/
def voteCore (votes : List Vote) (u i : Nat) (k : ItemKind) (t : Int) (now : Nat) :
    Int × List Vote :=
  match votes.find? (voteKey u i k) with
  | some vote =>
      if t = 0 then
        (t - vote.value, removeFirst (voteKey u i k) votes)
      else
        (t - vote.value, updateFirst (voteKey u i k) (fun v => { v with value := t }) votes)
  | none =>
      if t ≠ 0 then
        (t, votes ++ [{ user := u, item := i, itemType := k, value := t, createdAt := now }])
      else
        (0, votes)

/-- Error responses of the handlers (HTTP status in the source):
invalid vote type (400), item not found (404), generic server error
(500, the fall-through `catch` branch). -/
inductive VoteError where
  | invalidVoteType
  | itemNotFound
  | serverError
deriving DecidableEq, Repr

/-- Outcome of a vote request: the JSON `votes` field and the store after
the request, or an error response together with the (unchanged) store. -/
inductive VoteOutcome where
  | ok (newScore : Int) (db : DB)
  | error (e : VoteError) (db : DB)
deriving DecidableEq, Repr

/-- POST /api/posts/:id/vote (posts.js lines 377-439): validate
`voteType ∈ [1, 0, -1]`, 404 when the post does not exist, apply the
vote transition, then `post.votes += voteChange; await post.save()` and
respond with the new score. -/
def votePost (db : DB) (userId postId : Nat) (voteType : Int) (now : Nat) : VoteOutcome :=
  if ¬(voteType = 1 ∨ voteType = 0 ∨ voteType = -1) then
    VoteOutcome.error VoteError.invalidVoteType db
  else
    match db.posts.find? (postKey postId) with
    | none => VoteOutcome.error VoteError.itemNotFound db
    | some post =>
        let step := voteCore db.votes userId postId ItemKind.post voteType now
        let newScore := post.votes + step.1
        let posts' := updateFirst (postKey postId) (fun p => { p with votes := newScore }) db.posts
        VoteOutcome.ok newScore { db with posts := posts', votes := step.2 }

/-- POST /api/comments/:id/vote (comments.js lines 91-153): the same
handler body over the comments collection. -/
def voteComment (db : DB) (userId commentId : Nat) (voteType : Int) (now : Nat) : VoteOutcome :=
  if ¬(voteType = 1 ∨ voteType = 0 ∨ voteType = -1) then
    VoteOutcome.error VoteError.invalidVoteType db
  else
    match db.comments.find? (commentKey commentId) with
    | none => VoteOutcome.error VoteError.itemNotFound db
    | some comment =>
        let step := voteCore db.votes userId commentId ItemKind.comment voteType now
        let newScore := comment.votes + step.1
        let comments' :=
          updateFirst (commentKey commentId) (fun c => { c with votes := newScore }) db.comments
        VoteOutcome.ok newScore { db with comments := comments', votes := step.2 }

/-- Error responses of the creation and deletion handlers. -/
inductive CrudError where
  | notFound
  | notAuthorized
deriving DecidableEq, Repr

/-- Outcome of a creation or deletion request. -/
inductive CrudOutcome where
  | ok (db : DB)
  | error (e : CrudError) (db : DB)
deriving DecidableEq, Repr

/-- POST /api/posts (posts.js lines 232-285): 404 when the community
does not exist; otherwise save the new post with `votes: 0`, save the
author's auto-upvote Vote, then set `post.votes = 1` and save again.
`newId` is the object id mongoose generates for the new post. -/
def createPost (db : DB) (userId : Nat) (title content community : String)
    (newId now : Nat) : CrudOutcome :=
  if ¬ db.communities.contains community then
    CrudOutcome.error CrudError.notFound db
  else
    let newPost : Post :=
      { id := newId, title := title, content := content, author := userId,
        community := community, votes := 0, createdAt := now, isEdited := false }
    let newVote : Vote :=
      { user := userId, item := newId, itemType := ItemKind.post, value := 1, createdAt := now }
    let posts1 := db.posts ++ [newPost]
    let posts2 := updateFirst (postKey newId) (fun p => { p with votes := 1 }) posts1
    CrudOutcome.ok { db with posts := posts2, votes := db.votes ++ [newVote] }

/-- POST /api/posts/:id/comments (posts.js lines 499-555): 404 when the
parent post does not exist; otherwise save the new comment with
`votes: 1` (auto-upvote) and save the author's Vote on it. -/
def createComment (db : DB) (userId postId : Nat) (content : String)
    (newId now : Nat) : CrudOutcome :=
  match db.posts.find? (postKey postId) with
  | none => CrudOutcome.error CrudError.notFound db
  | some _ =>
      let newComment : Comment :=
        { id := newId, content := content, author := userId, post := postId,
          votes := 1, createdAt := now, isEdited := false }
      let newVote : Vote :=
        { user := userId, item := newId, itemType := ItemKind.comment, value := 1, createdAt := now }
      CrudOutcome.ok
        { db with comments := db.comments ++ [newComment], votes := db.votes ++ [newVote] }

/-- DELETE /api/posts/:id (posts.js lines 340-372): 404 when absent, 401
when the caller is not the author; otherwise
`Comment.deleteMany (post = id)`, then
`Vote.deleteMany (item = id, itemType = post)`, then `post.remove()`. -/
def deletePost (db : DB) (userId postId : Nat) : CrudOutcome :=
  match db.posts.find? (postKey postId) with
  | none => CrudOutcome.error CrudError.notFound db
  | some post =>
      if post.author ≠ userId then
        CrudOutcome.error CrudError.notAuthorized db
      else
        let comments' := db.comments.filter (fun c => decide (¬ c.post = postId))
        let votes' :=
          db.votes.filter (fun v => decide (¬(v.item = postId ∧ v.itemType = ItemKind.post)))
        let posts' := removeFirst (postKey postId) db.posts
        CrudOutcome.ok { db with posts := posts', comments := comments', votes := votes' }

/-- DELETE /api/comments/:id (comments.js lines 57-86): 404 when absent,
401 when the caller is not the author; otherwise
`Vote.deleteMany (item = id, itemType = comment)`, then
`comment.remove()`. -/
def deleteComment (db : DB) (userId commentId : Nat) : CrudOutcome :=
  match db.comments.find? (commentKey commentId) with
  | none => CrudOutcome.error CrudError.notFound db
  | some comment =>
      if comment.author ≠ userId then
        CrudOutcome.error CrudError.notAuthorized db
      else
        let votes' :=
          db.votes.filter (fun v => decide (¬(v.item = commentId ∧ v.itemType = ItemKind.comment)))
        let comments' := removeFirst (commentKey commentId) db.comments
        CrudOutcome.ok { db with comments := comments', votes := votes' }

/-- The karma helper in src/routes/users.js (lines 139-154): fetch the
posts authored by the user and reduce their `votes` fields, likewise for
comments, and return the two sums' total. -/
def calculateKarma (db : DB) (userId : Nat) : Int :=
  let posts := db.posts.filter (fun p => decide (p.author = userId))
  let postKarma := posts.foldl (fun total post => total + post.votes) 0
  let comments := db.comments.filter (fun c => decide (c.author = userId))
  let commentKarma := comments.foldl (fun total comment => total + comment.votes) 0
  postKarma + commentKarma

/-- Matcher selecting the Vote records of one item. -/
def itemKey (i : Nat) (k : ItemKind) (v : Vote) : Bool :=
  decide (v.item = i ∧ v.itemType = k)

/-- All Vote records for a given item, in store order. -/
def votesFor (db : DB) (k : ItemKind) (i : Nat) : List Vote :=
  db.votes.filter (itemKey i k)

/-- Sum of the values of the Vote records selected by `q`. -/
def sumFor (q : Vote → Bool) (vs : List Vote) : Int :=
  ((vs.filter q).map Vote.value).sum

/-- Sum of the values of all Vote records for a given item. -/
def voteSum (db : DB) (k : ItemKind) (i : Nat) : Int :=
  sumFor (itemKey i k) db.votes

/-- A successful `find?` splits the list at the first match. -/
theorem find?_split {α : Type} {p : α → Bool} {l : List α} {w : α}
    (h : l.find? p = some w) :
    ∃ l₁ l₂, l = l₁ ++ w :: l₂ ∧ (∀ x ∈ l₁, p x = false) := by
  induction l with
  | nil => simp at h
  | cons x xs ih =>
      by_cases hx : p x = true
      · rw [List.find?_cons_of_pos _ hx] at h
        cases h
        exact ⟨[], xs, rfl, by simp⟩
      · rw [List.find?_cons_of_neg _ hx] at h
        obtain ⟨l₁, l₂, rfl, hl⟩ := ih h
        refine ⟨x :: l₁, l₂, rfl, ?_⟩
        intro y hy
        rcases List.mem_cons.1 hy with rfl | hy
        · exact Bool.eq_false_iff.mpr hx
        · exact hl y hy

/-- `updateFirst` skips a prefix with no match. -/
theorem updateFirst_append {α : Type} {p : α → Bool} (g : α → α) {l₁ : List α}
    (l₂ : List α) (h : ∀ x ∈ l₁, p x = false) :
    updateFirst p g (l₁ ++ l₂) = l₁ ++ updateFirst p g l₂ := by
  induction l₁ with
  | nil => simp
  | cons x xs ih =>
      have hx := h x (List.mem_cons_self x xs)
      simp only [List.cons_append, updateFirst, hx, Bool.false_eq_true, if_false,
        List.cons.injEq, true_and]
      exact ih fun y hy => h y (List.mem_cons_of_mem x hy)

/-- `updateFirst` rewrites the head when it matches. -/
theorem updateFirst_cons_pos {α : Type} {p : α → Bool} (g : α → α) {x : α}
    (xs : List α) (h : p x = true) :
    updateFirst p g (x :: xs) = g x :: xs := by
  simp [updateFirst, h]

/-- `removeFirst` skips a prefix with no match. -/
theorem removeFirst_append {α : Type} {p : α → Bool} {l₁ : List α}
    (l₂ : List α) (h : ∀ x ∈ l₁, p x = false) :
    removeFirst p (l₁ ++ l₂) = l₁ ++ removeFirst p l₂ := by
  induction l₁ with
  | nil => simp
  | cons x xs ih =>
      have hx := h x (List.mem_cons_self x xs)
      simp only [List.cons_append, removeFirst, hx, Bool.false_eq_true, if_false,
        List.cons.injEq, true_and]
      exact ih fun y hy => h y (List.mem_cons_of_mem x hy)

/-- `removeFirst` drops the head when it matches. -/
theorem removeFirst_cons_pos {α : Type} {p : α → Bool} {x : α}
    (xs : List α) (h : p x = true) :
    removeFirst p (x :: xs) = xs := by
  simp [removeFirst, h]

/-- The update applied to the first match of a split list. -/
theorem updateFirst_split {α : Type} {p : α → Bool} (g : α → α) {l₁ l₂ : List α}
    {w : α} (h : ∀ x ∈ l₁, p x = false) (hw : p w = true) :
    updateFirst p g (l₁ ++ w :: l₂) = l₁ ++ g w :: l₂ := by
  rw [updateFirst_append g _ h, updateFirst_cons_pos g _ hw]

/-- The removal of the first match of a split list. -/
theorem removeFirst_split {α : Type} {p : α → Bool} {l₁ l₂ : List α}
    {w : α} (h : ∀ x ∈ l₁, p x = false) (hw : p w = true) :
    removeFirst p (l₁ ++ w :: l₂) = l₁ ++ l₂ := by
  rw [removeFirst_append _ h, removeFirst_cons_pos _ hw]

/-- `sumFor` distributes over append. -/
theorem sumFor_append (q : Vote → Bool) (l₁ l₂ : List Vote) :
    sumFor q (l₁ ++ l₂) = sumFor q l₁ + sumFor q l₂ := by
  simp [sumFor, List.filter_append]

/-- `sumFor` on a cons. -/
theorem sumFor_cons (q : Vote → Bool) (x : Vote) (l : List Vote) :
    sumFor q (x :: l) = (if q x then x.value else 0) + sumFor q l := by
  simp only [sumFor, List.filter_cons]
  split
  · simp
  · simp

/-- `sumFor` over a singleton. -/
theorem sumFor_singleton (q : Vote → Bool) (x : Vote) :
    sumFor q [x] = (if q x then x.value else 0) := by
  rw [sumFor_cons]
  simp [sumFor]

/-- Unfolding of the vote matcher. -/
theorem voteKey_iff {u i : Nat} {k : ItemKind} {v : Vote} :
    voteKey u i k v = true ↔ (v.user = u ∧ v.item = i ∧ v.itemType = k) := by
  simp [voteKey]

/-- `find?` over a split list with an unmatched prefix finds the head of
the suffix when it matches. -/
theorem find?_of_split {α : Type} {p : α → Bool} {l₁ : List α} (l₂ : List α)
    {w : α} (h : ∀ x ∈ l₁, p x = false) (hw : p w = true) :
    (l₁ ++ w :: l₂).find? p = some w := by
  induction l₁ with
  | nil => simpa [List.find?] using List.find?_cons_of_pos l₂ hw
  | cons x xs ih =>
      rw [List.cons_append, List.find?_cons_of_neg _ (by simp [h x (List.mem_cons_self x xs)])]
      exact ih fun y hy => h y (List.mem_cons_of_mem x hy)

/-- Replacing the value of a Vote by its own value is the identity. -/
theorem Vote.set_value_self (v : Vote) : { v with value := v.value } = v := rfl

/-- Claim C2: the shared vote-transition logic realizes the full 3x3
table of (existing vote in none, +1, -1) x (requested in 0, +1, -1):
no existing vote and requested 0 is a no-op with delta 0; no existing
vote and requested +1 or -1 inserts a Vote of the requested value with
delta the requested value; existing vote v and requested 0 removes the
record (none remains) with delta -v; existing vote v and requested v
leaves the store unchanged with delta 0 (idempotent re-vote, not a
toggle to zero); existing vote v and requested -v updates the record's
value to -v with delta -2v.  The hypotheses are the Vote schema's
guarantees: stored values lie in the enum [-1, 1] and the unique
(user, item) index holds. -/
theorem vote_transition_table (votes : List Vote) (u i : Nat) (k : ItemKind)
    (t : Int) (now : Nat)
    (hwf : ∀ v ∈ votes, v.value = 1 ∨ v.value = -1)
    (huniq : votes.Pairwise fun a b => ¬(a.user = b.user ∧ a.item = b.item)) :
    (votes.find? (voteKey u i k) = none →
        voteCore votes u i k 0 now = (0, votes)) ∧
    (votes.find? (voteKey u i k) = none → (t = 1 ∨ t = -1) →
        voteCore votes u i k t now
          = (t, votes ++ [{ user := u, item := i, itemType := k, value := t, createdAt := now }])) ∧
    (∀ v, votes.find? (voteKey u i k) = some v →
        voteCore votes u i k 0 now = (-v.value, removeFirst (voteKey u i k) votes) ∧
        (removeFirst (voteKey u i k) votes).find? (voteKey u i k) = none) ∧
    (∀ v, votes.find? (voteKey u i k) = some v →
        voteCore votes u i k v.value now = (0, votes)) ∧
    (∀ v, votes.find? (voteKey u i k) = some v →
        voteCore votes u i k (-v.value) now
          = (-(2 * v.value),
             updateFirst (voteKey u i k) (fun w => { w with value := -v.value }) votes) ∧
        (updateFirst (voteKey u i k) (fun w => { w with value := -v.value }) votes).find?
            (voteKey u i k) = some { v with value := -v.value }) := by
  refine ⟨?_, ?_, ?_, ?_, ?_⟩
  · intro hnone
    simp [voteCore, hnone]
  · intro hnone ht
    have ht0 : t ≠ 0 := by rcases ht with rfl | rfl <;> decide
    simp [voteCore, hnone, ht0]
  · intro v hv
    have hkey := List.find?_some hv
    obtain ⟨hu, hi, hk⟩ := voteKey_iff.mp hkey
    obtain ⟨m₁, m₂, hsplit, hm₁⟩ := find?_split hv
    constructor
    · simp [voteCore, hv, zero_sub]
    · rw [hsplit, removeFirst_split hm₁ hkey]
      rw [List.find?_eq_none]
      intro x hx
      rcases List.mem_append.1 hx with hx1 | hx2
      · simp [hm₁ x hx1]
      · intro hxkey
        obtain ⟨hxu, hxi, _⟩ := voteKey_iff.mp hxkey
        have hpair : ¬(v.user = x.user ∧ v.item = x.item) := by
          have h1 := (List.pairwise_append.1 (hsplit ▸ huniq)).2.1
          exact (List.pairwise_cons.1 h1).1 x hx2
        exact hpair ⟨by rw [hu, hxu], by rw [hi, hxi]⟩
  · intro v hv
    have hv0 : v.value = 1 ∨ v.value = -1 := hwf v (List.mem_of_find?_eq_some hv)
    have hne : v.value ≠ 0 := by rcases hv0 with h | h <;> rw [h] <;> decide
    have hkey := List.find?_some hv
    obtain ⟨m₁, m₂, hsplit, hm₁⟩ := find?_split hv
    simp only [voteCore, hv, hne, if_false, sub_self]
    rw [hsplit, updateFirst_split _ hm₁ hkey, Vote.set_value_self]
  · intro v hv
    have hv0 : v.value = 1 ∨ v.value = -1 := hwf v (List.mem_of_find?_eq_some hv)
    have hne : -v.value ≠ 0 := by rcases hv0 with h | h <;> rw [h] <;> decide
    have hkey := List.find?_some hv
    obtain ⟨m₁, m₂, hsplit, hm₁⟩ := find?_split hv
    constructor
    · simp only [voteCore, hv, hne, if_false]
      have harith : -v.value - v.value = -(2 * v.value) := by ring
      rw [harith]
    · rw [hsplit, updateFirst_split _ hm₁ hkey]
      refine find?_of_split _ hm₁ ?_
      rw [voteKey_iff] at hkey ⊢
      exact hkey

/-- Witness for C2: a concrete run of the transition on an empty store
(inserting an upvote) and on a store holding that upvote (idempotent
re-vote leaves the store unchanged with delta 0). -/
theorem vote_transition_table_witness :
    voteCore [] 3 7 ItemKind.post 1 5
        = (1, [{ user := 3, item := 7, itemType := ItemKind.post, value := 1, createdAt := 5 }]) ∧
    voteCore [{ user := 3, item := 7, itemType := ItemKind.post, value := 1, createdAt := 5 }]
        3 7 ItemKind.post 1 6
      = (0, [{ user := 3, item := 7, itemType := ItemKind.post, value := 1, createdAt := 5 }]) := by
  constructor
  · exact (vote_transition_table [] 3 7 ItemKind.post 1 5 (by simp) (by simp)).2.1
      (by decide) (Or.inl rfl)
  · exact (vote_transition_table
      [{ user := 3, item := 7, itemType := ItemKind.post, value := 1, createdAt := 5 }]
      3 7 ItemKind.post 1 6 (by decide) (by decide)).2.2.2.1
      { user := 3, item := 7, itemType := ItemKind.post, value := 1, createdAt := 5 }
      (by decide)

/-- The post vote handler on an invalid vote type. -/
theorem votePost_invalid (db : DB) (u iid : Nat) (t : Int) (now : Nat)
    (h : ¬(t = 1 ∨ t = 0 ∨ t = -1)) :
    votePost db u iid t now = VoteOutcome.error VoteError.invalidVoteType db := by
  unfold votePost
  rw [if_pos h]

/-- The post vote handler on a missing post. -/
theorem votePost_notFound (db : DB) (u iid : Nat) (t : Int) (now : Nat)
    (hv : t = 1 ∨ t = 0 ∨ t = -1) (h : db.posts.find? (postKey iid) = none) :
    votePost db u iid t now = VoteOutcome.error VoteError.itemNotFound db := by
  unfold votePost
  rw [if_neg (not_not_intro hv), h]

/-- The post vote handler on a valid request: transition then
`post.votes += voteChange; post.save()`. -/
theorem votePost_some (db : DB) (u iid : Nat) (t : Int) (now : Nat) (post : Post)
    (hv : t = 1 ∨ t = 0 ∨ t = -1) (hfind : db.posts.find? (postKey iid) = some post) :
    votePost db u iid t now
      = VoteOutcome.ok (post.votes + (voteCore db.votes u iid ItemKind.post t now).1)
          { db with
            posts := updateFirst (postKey iid)
              (fun p =>
                { p with votes := post.votes + (voteCore db.votes u iid ItemKind.post t now).1 })
              db.posts,
            votes := (voteCore db.votes u iid ItemKind.post t now).2 } := by
  unfold votePost
  rw [if_neg (not_not_intro hv), hfind]

/-- The comment vote handler on an invalid vote type. -/
theorem voteComment_invalid (db : DB) (u iid : Nat) (t : Int) (now : Nat)
    (h : ¬(t = 1 ∨ t = 0 ∨ t = -1)) :
    voteComment db u iid t now = VoteOutcome.error VoteError.invalidVoteType db := by
  unfold voteComment
  rw [if_pos h]

/-- The comment vote handler on a missing comment. -/
theorem voteComment_notFound (db : DB) (u iid : Nat) (t : Int) (now : Nat)
    (hv : t = 1 ∨ t = 0 ∨ t = -1) (h : db.comments.find? (commentKey iid) = none) :
    voteComment db u iid t now = VoteOutcome.error VoteError.itemNotFound db := by
  unfold voteComment
  rw [if_neg (not_not_intro hv), h]

/-- The comment vote handler on a valid request. -/
theorem voteComment_some (db : DB) (u iid : Nat) (t : Int) (now : Nat) (comment : Comment)
    (hv : t = 1 ∨ t = 0 ∨ t = -1) (hfind : db.comments.find? (commentKey iid) = some comment) :
    voteComment db u iid t now
      = VoteOutcome.ok (comment.votes + (voteCore db.votes u iid ItemKind.comment t now).1)
          { db with
            comments := updateFirst (commentKey iid)
              (fun c =>
                { c with votes := comment.votes + (voteCore db.votes u iid ItemKind.comment t now).1 })
              db.comments,
            votes := (voteCore db.votes u iid ItemKind.comment t now).2 } := by
  unfold voteComment
  rw [if_neg (not_not_intro hv), hfind]

/-- Claim C5: a vote request fails with `invalidVoteType` exactly when
the requested type lies outside -1, 0, +1, and fails with
`itemNotFound` exactly when the type is valid but the target id does not
resolve to a stored (hence non-deleted) item of the handler's kind; the
type check precedes the lookup, and both precede the transition, so on
every such failure the store is returned unchanged (no vote and no score
is mutated). -/
theorem vote_validation_errors (db : DB) (u iid : Nat) (t : Int) (now : Nat) :
    (votePost db u iid t now = VoteOutcome.error VoteError.invalidVoteType db
        ↔ ¬(t = 1 ∨ t = 0 ∨ t = -1)) ∧
    (votePost db u iid t now = VoteOutcome.error VoteError.itemNotFound db
        ↔ ((t = 1 ∨ t = 0 ∨ t = -1) ∧ db.posts.find? (postKey iid) = none)) ∧
    (∀ e db', votePost db u iid t now = VoteOutcome.error e db' → db' = db) ∧
    (voteComment db u iid t now = VoteOutcome.error VoteError.invalidVoteType db
        ↔ ¬(t = 1 ∨ t = 0 ∨ t = -1)) ∧
    (voteComment db u iid t now = VoteOutcome.error VoteError.itemNotFound db
        ↔ ((t = 1 ∨ t = 0 ∨ t = -1) ∧ db.comments.find? (commentKey iid) = none)) ∧
    (∀ e db', voteComment db u iid t now = VoteOutcome.error e db' → db' = db) := by
  by_cases hv : t = 1 ∨ t = 0 ∨ t = -1
  · refine ⟨?_, ?_, ?_, ?_, ?_, ?_⟩
    · rw [iff_false_intro (not_not_intro hv), iff_false]
      intro h
      cases hfind : db.posts.find? (postKey iid) with
      | none => rw [votePost_notFound db u iid t now hv hfind] at h; simp at h
      | some post => rw [votePost_some db u iid t now post hv hfind] at h; simp at h
    · cases hfind : db.posts.find? (postKey iid) with
      | none => simp [votePost_notFound db u iid t now hv hfind, hv]
      | some post => simp [votePost_some db u iid t now post hv hfind, hfind]
    · intro e db' h
      cases hfind : db.posts.find? (postKey iid) with
      | none =>
          rw [votePost_notFound db u iid t now hv hfind] at h
          cases h
          rfl
      | some post => rw [votePost_some db u iid t now post hv hfind] at h; simp at h
    · rw [iff_false_intro (not_not_intro hv), iff_false]
      intro h
      cases hfind : db.comments.find? (commentKey iid) with
      | none => rw [voteComment_notFound db u iid t now hv hfind] at h; simp at h
      | some c => rw [voteComment_some db u iid t now c hv hfind] at h; simp at h
    · cases hfind : db.comments.find? (commentKey iid) with
      | none => simp [voteComment_notFound db u iid t now hv hfind, hv]
      | some c => simp [voteComment_some db u iid t now c hv hfind, hfind]
    · intro e db' h
      cases hfind : db.comments.find? (commentKey iid) with
      | none =>
          rw [voteComment_notFound db u iid t now hv hfind] at h
          cases h
          rfl
      | some c => rw [voteComment_some db u iid t now c hv hfind] at h; simp at h
  · refine ⟨?_, ?_, ?_, ?_, ?_, ?_⟩
    · simp [votePost_invalid db u iid t now hv, hv]
    · simp [votePost_invalid db u iid t now hv, hv]
    · intro e db' h
      rw [votePost_invalid db u iid t now hv] at h
      cases h
      rfl
    · simp [voteComment_invalid db u iid t now hv, hv]
    · simp [voteComment_invalid db u iid t now hv, hv]
    · intro e db' h
      rw [voteComment_invalid db u iid t now hv] at h
      cases h
      rfl

/-- Witness for C5: requesting vote type 2 on an empty store returns the
invalid-vote-type error with the store unchanged, and a valid upvote on
a store with no posts returns the not-found error with the store
unchanged. -/
theorem vote_validation_errors_witness :
    votePost DB.empty 1 1 2 0 = VoteOutcome.error VoteError.invalidVoteType DB.empty ∧
    votePost DB.empty 1 1 1 0 = VoteOutcome.error VoteError.itemNotFound DB.empty := by
  constructor
  · exact (vote_validation_errors DB.empty 1 1 2 0).1.mpr (by decide)
  · exact (vote_validation_errors DB.empty 1 1 1 0).2.1.mpr (by decide)

/-- A left fold of additions starting at `a` is `a` plus the sum. -/
theorem foldl_add_eq_sum {β : Type} (f : β → Int) (l : List β) (a : Int) :
    l.foldl (fun total x => total + f x) a = a + (l.map f).sum := by
  induction l generalizing a with
  | nil => simp
  | cons x xs ih =>
      rw [List.foldl_cons, ih (a + f x), List.map_cons, List.sum_cons]
      ring

/-- Claim C9: the karma helper returns exactly the sum of the stored
score fields of all posts authored by the user plus the sum of the
stored score fields of all comments authored by the user; it is
recomputed from the stored scores on every call (it is a function of the
current store only — nothing is cached). -/
theorem calculateKarma_eq_sum_of_scores (db : DB) (u : Nat) :
    calculateKarma db u
      = ((db.posts.filter fun p => decide (p.author = u)).map Post.votes).sum
        + ((db.comments.filter fun c => decide (c.author = u)).map Comment.votes).sum := by
  simp only [calculateKarma]
  rw [foldl_add_eq_sum Post.votes, foldl_add_eq_sum Comment.votes]
  simp

/-- `voteCore` when no vote exists and the request is neutral. -/
theorem voteCore_none_zero (votes : List Vote) (u i : Nat) (k : ItemKind) (now : Nat)
    (h : votes.find? (voteKey u i k) = none) :
    voteCore votes u i k 0 now = (0, votes) := by
  unfold voteCore
  rw [h]
  simp

/-- `voteCore` when no vote exists and the request is non-neutral. -/
theorem voteCore_none_insert (votes : List Vote) (u i : Nat) (k : ItemKind) (t : Int) (now : Nat)
    (h : votes.find? (voteKey u i k) = none) (ht : t ≠ 0) :
    voteCore votes u i k t now
      = (t, votes ++ [{ user := u, item := i, itemType := k, value := t, createdAt := now }]) := by
  unfold voteCore
  rw [h]
  simp [ht]

/-- `voteCore` when a vote exists and the request is neutral. -/
theorem voteCore_some_zero (votes : List Vote) (u i : Nat) (k : ItemKind) (now : Nat)
    (v : Vote) (h : votes.find? (voteKey u i k) = some v) :
    voteCore votes u i k 0 now = (0 - v.value, removeFirst (voteKey u i k) votes) := by
  unfold voteCore
  rw [h]
  simp

/-- `voteCore` when a vote exists and the request is non-neutral. -/
theorem voteCore_some_update (votes : List Vote) (u i : Nat) (k : ItemKind) (t : Int) (now : Nat)
    (v : Vote) (h : votes.find? (voteKey u i k) = some v) (ht : t ≠ 0) :
    voteCore votes u i k t now
      = (t - v.value,
         updateFirst (voteKey u i k) (fun w => { w with value := t }) votes) := by
  unfold voteCore
  rw [h]
  simp [ht]

/-- Inversion of a successful post vote. -/
theorem votePost_ok_inv {db : DB} {u iid : Nat} {t : Int} {now : Nat} {s : Int} {db' : DB}
    (h : votePost db u iid t now = VoteOutcome.ok s db') :
    (t = 1 ∨ t = 0 ∨ t = -1) ∧
    ∃ post, db.posts.find? (postKey iid) = some post ∧
      s = post.votes + (voteCore db.votes u iid ItemKind.post t now).1 ∧
      db' = { db with
              posts := updateFirst (postKey iid) (fun p => { p with votes := s }) db.posts,
              votes := (voteCore db.votes u iid ItemKind.post t now).2 } := by
  by_cases hv : t = 1 ∨ t = 0 ∨ t = -1
  · cases hfind : db.posts.find? (postKey iid) with
    | none =>
        rw [votePost_notFound db u iid t now hv hfind] at h
        exact absurd h (by simp)
    | some post =>
        rw [votePost_some db u iid t now post hv hfind] at h
        obtain ⟨h1, h2⟩ := VoteOutcome.ok.inj h
        refine ⟨hv, post, rfl, h1.symm, ?_⟩
        rw [← h2, h1]
  · rw [votePost_invalid db u iid t now hv] at h
    exact absurd h (by simp)

/-- Inversion of a successful comment vote. -/
theorem voteComment_ok_inv {db : DB} {u iid : Nat} {t : Int} {now : Nat} {s : Int} {db' : DB}
    (h : voteComment db u iid t now = VoteOutcome.ok s db') :
    (t = 1 ∨ t = 0 ∨ t = -1) ∧
    ∃ c, db.comments.find? (commentKey iid) = some c ∧
      s = c.votes + (voteCore db.votes u iid ItemKind.comment t now).1 ∧
      db' = { db with
              comments := updateFirst (commentKey iid) (fun x => { x with votes := s }) db.comments,
              votes := (voteCore db.votes u iid ItemKind.comment t now).2 } := by
  by_cases hv : t = 1 ∨ t = 0 ∨ t = -1
  · cases hfind : db.comments.find? (commentKey iid) with
    | none =>
        rw [voteComment_notFound db u iid t now hv hfind] at h
        exact absurd h (by simp)
    | some c =>
        rw [voteComment_some db u iid t now c hv hfind] at h
        obtain ⟨h1, h2⟩ := VoteOutcome.ok.inj h
        refine ⟨hv, c, rfl, h1.symm, ?_⟩
        rw [← h2, h1]
  · rw [voteComment_invalid db u iid t now hv] at h
    exact absurd h (by simp)

/-- The vote transition never touches a Vote record of another
(user, item) pair: filtering the caller's pair away commutes with it. -/
theorem voteCore_frame (votes : List Vote) (u i : Nat) (k : ItemKind) (t : Int) (now : Nat) :
    (voteCore votes u i k t now).2.filter (fun v => !decide (v.user = u ∧ v.item = i))
      = votes.filter (fun v => !decide (v.user = u ∧ v.item = i)) := by
  cases hfind : votes.find? (voteKey u i k) with
  | none =>
      by_cases ht : t = 0
      · rw [ht, voteCore_none_zero votes u i k now hfind]
      · rw [voteCore_none_insert votes u i k t now hfind ht]
        simp [List.filter_append]
  | some vote =>
      have hkey := List.find?_some hfind
      obtain ⟨hu, hi, _⟩ := voteKey_iff.mp hkey
      obtain ⟨m₁, m₂, hsplit, hm₁⟩ := find?_split hfind
      by_cases ht : t = 0
      · rw [ht, voteCore_some_zero votes u i k now vote hfind]
        simp only
        rw [hsplit, removeFirst_split hm₁ hkey, List.filter_append, List.filter_append,
          List.filter_cons]
        simp [hu, hi]
      · rw [voteCore_some_update votes u i k t now vote hfind ht]
        simp only
        rw [hsplit, updateFirst_split _ hm₁ hkey, List.filter_append, List.filter_append,
          List.filter_cons, List.filter_cons]
        simp [hu, hi]

/-- Claim C10: a successful vote by user U on item I changes only the
score field of I and only the Vote record of the (U, I) pair: the other
collections are untouched, every item other than I is unchanged, every
non-score field of I keeps its value, and every Vote record of any other
(user, item) pair is unchanged. -/
theorem vote_frame (db : DB) (u iid : Nat) (t : Int) (now : Nat) :
    (∀ s db', votePost db u iid t now = VoteOutcome.ok s db' →
        db'.comments = db.comments ∧
        db'.communities = db.communities ∧
        db'.posts.filter (fun p => !postKey iid p) = db.posts.filter (fun p => !postKey iid p) ∧
        (∃ post post', db.posts.find? (postKey iid) = some post ∧
            db'.posts.find? (postKey iid) = some post' ∧
            post'.id = post.id ∧ post'.title = post.title ∧ post'.content = post.content ∧
            post'.author = post.author ∧ post'.community = post.community ∧
            post'.createdAt = post.createdAt) ∧
        db'.votes.filter (fun v => !decide (v.user = u ∧ v.item = iid))
          = db.votes.filter (fun v => !decide (v.user = u ∧ v.item = iid))) ∧
    (∀ s db', voteComment db u iid t now = VoteOutcome.ok s db' →
        db'.posts = db.posts ∧
        db'.communities = db.communities ∧
        db'.comments.filter (fun c => !commentKey iid c)
          = db.comments.filter (fun c => !commentKey iid c) ∧
        (∃ c c', db.comments.find? (commentKey iid) = some c ∧
            db'.comments.find? (commentKey iid) = some c' ∧
            c'.id = c.id ∧ c'.content = c.content ∧ c'.author = c.author ∧
            c'.post = c.post ∧ c'.createdAt = c.createdAt) ∧
        db'.votes.filter (fun v => !decide (v.user = u ∧ v.item = iid))
          = db.votes.filter (fun v => !decide (v.user = u ∧ v.item = iid))) := by
  constructor
  · intro s db' h
    obtain ⟨hv, post, hfind, hs, hdb⟩ := votePost_ok_inv h
    have hkey : postKey iid post = true := List.find?_some hfind
    obtain ⟨l₁, l₂, hsplit, hl₁⟩ := find?_split hfind
    subst hdb
    refine ⟨rfl, rfl, ?_, ?_, voteCore_frame db.votes u iid ItemKind.post t now⟩
    · rw [hsplit, updateFirst_split _ hl₁ hkey, List.filter_append, List.filter_append,
        List.filter_cons, List.filter_cons]
      have : postKey iid { post with votes := s } = true := hkey
      simp [this, hkey]
    · refine ⟨post, { post with votes := s }, hfind, ?_, rfl, rfl, rfl, rfl, rfl, rfl⟩
      rw [hsplit, updateFirst_split _ hl₁ hkey]
      exact find?_of_split _ hl₁ hkey
  · intro s db' h
    obtain ⟨hv, c, hfind, hs, hdb⟩ := voteComment_ok_inv h
    have hkey : commentKey iid c = true := List.find?_some hfind
    obtain ⟨l₁, l₂, hsplit, hl₁⟩ := find?_split hfind
    subst hdb
    refine ⟨rfl, rfl, ?_, ?_, voteCore_frame db.votes u iid ItemKind.comment t now⟩
    · rw [hsplit, updateFirst_split _ hl₁ hkey, List.filter_append, List.filter_append,
        List.filter_cons, List.filter_cons]
      have : commentKey iid { c with votes := s } = true := hkey
      simp [this, hkey]
    · refine ⟨c, { c with votes := s }, hfind, ?_, rfl, rfl, rfl, rfl, rfl⟩
      rw [hsplit, updateFirst_split _ hl₁ hkey]
      exact find?_of_split _ hl₁ hkey

/-- Witness for C10: a concrete successful upvote on a two-post store
leaves the second post, the comments, and the other user's vote
untouched. -/
theorem vote_frame_witness :
    votePost { DB.empty with
        posts := [{ id := 1, title := "a", content := "b", author := 0,
                    community := "c", votes := 1, createdAt := 0, isEdited := false },
                  { id := 2, title := "d", content := "e", author := 0,
                    community := "c", votes := 0, createdAt := 0, isEdited := false }],
        votes := [{ user := 0, item := 1, itemType := ItemKind.post, value := 1,
                    createdAt := 0 }] }
      5 1 1 9
      = VoteOutcome.ok 2 { DB.empty with
          posts := [{ id := 1, title := "a", content := "b", author := 0,
                      community := "c", votes := 2, createdAt := 0, isEdited := false },
                    { id := 2, title := "d", content := "e", author := 0,
                      community := "c", votes := 0, createdAt := 0, isEdited := false }],
          votes := [{ user := 0, item := 1, itemType := ItemKind.post, value := 1,
                      createdAt := 0 },
                    { user := 5, item := 1, itemType := ItemKind.post, value := 1,
                      createdAt := 9 }] } ∧
    ({ DB.empty with
        posts := [{ id := 1, title := "a", content := "b", author := 0,
                    community := "c", votes := 2, createdAt := 0, isEdited := false },
                  { id := 2, title := "d", content := "e", author := 0,
                    community := "c", votes := 0, createdAt := 0, isEdited := false }],
        votes := [{ user := 0, item := 1, itemType := ItemKind.post, value := 1,
                    createdAt := 0 },
                  { user := 5, item := 1, itemType := ItemKind.post, value := 1,
                    createdAt := 9 }] } : DB).comments = ([] : List Comment) := by
  constructor
  · decide
  · exact ((vote_frame { DB.empty with
      posts := [{ id := 1, title := "a", content := "b", author := 0,
                  community := "c", votes := 1, createdAt := 0, isEdited := false },
                { id := 2, title := "d", content := "e", author := 0,
                  community := "c", votes := 0, createdAt := 0, isEdited := false }],
      votes := [{ user := 0, item := 1, itemType := ItemKind.post, value := 1,
                  createdAt := 0 }] } 5 1 1 9).1 2 _ (by decide)).1

/-- Freshness of a newly generated object id: it collides with no stored
post, comment, or vote target (mongoose ObjectIds are never reused). -/
def FreshId (db : DB) (i : Nat) : Prop :=
  (∀ p ∈ db.posts, p.id ≠ i) ∧ (∀ c ∈ db.comments, c.id ≠ i) ∧ (∀ v ∈ db.votes, v.item ≠ i)

/-- Claim C6: a successful creation of a post or comment by user U
leaves the new item with score 1 and exactly one Vote record for it,
namely the author's self-upvote of value +1. -/
theorem create_seeds_self_upvote (db : DB) (u pid newId now : Nat)
    (title content comm : String) (hfresh : FreshId db newId) :
    (∀ db', createPost db u title content comm newId now = CrudOutcome.ok db' →
        (∃ p, db'.posts.find? (postKey newId) = some p ∧ p.votes = 1) ∧
        votesFor db' ItemKind.post newId
          = [{ user := u, item := newId, itemType := ItemKind.post, value := 1,
               createdAt := now }]) ∧
    (∀ db', createComment db u pid content newId now = CrudOutcome.ok db' →
        (∃ c, db'.comments.find? (commentKey newId) = some c ∧ c.votes = 1) ∧
        votesFor db' ItemKind.comment newId
          = [{ user := u, item := newId, itemType := ItemKind.comment, value := 1,
               createdAt := now }]) := by
  have hvotes : ∀ k, db.votes.filter (itemKey newId k) = [] := by
    intro k
    rw [List.filter_eq_nil_iff]
    intro v hv
    simp [itemKey, hfresh.2.2 v hv]
  constructor
  · intro db' h
    by_cases hc : db.communities.contains comm
    · unfold createPost at h
      rw [if_neg (not_not_intro hc)] at h
      obtain rfl := (CrudOutcome.ok.inj h).symm
      have hpre : ∀ p ∈ db.posts, postKey newId p = false := by
        intro p hp
        simp [postKey, hfresh.1 p hp]
      have hnew : postKey newId
          { id := newId, title := title, content := content, author := u,
            community := comm, votes := (0 : Int), createdAt := now,
            isEdited := false } = true := by
        simp [postKey]
      constructor
      · refine
          ⟨{ id := newId, title := title, content := content, author := u,
             community := comm, votes := 1, createdAt := now, isEdited := false },
           ?_, rfl⟩
        show (updateFirst (postKey newId) _ (db.posts ++ [_])).find? (postKey newId) = _
        rw [updateFirst_append _ [_] hpre, updateFirst_cons_pos _ _ hnew]
        exact find?_of_split _ hpre (by simp [postKey])
      · show (db.votes ++ [_]).filter (itemKey newId ItemKind.post) = _
        rw [List.filter_append, hvotes ItemKind.post]
        simp [itemKey]
    · unfold createPost at h
      rw [if_pos hc] at h
      exact absurd h (by simp)
  · intro db' h
    cases hfind : db.posts.find? (postKey pid) with
    | none =>
        unfold createComment at h
        rw [hfind] at h
        exact absurd h (by simp)
    | some parent =>
        unfold createComment at h
        rw [hfind] at h
        obtain rfl := (CrudOutcome.ok.inj h).symm
        have hpre : ∀ c ∈ db.comments, commentKey newId c = false := by
          intro c hc
          simp [commentKey, hfresh.2.1 c hc]
        constructor
        · refine
            ⟨{ id := newId, content := content, author := u, post := pid,
               votes := 1, createdAt := now, isEdited := false },
             ?_, rfl⟩
          exact find?_of_split _ hpre (by simp [commentKey])
        · show (db.votes ++ [_]).filter (itemKey newId ItemKind.comment) = _
          rw [List.filter_append, hvotes ItemKind.comment]
          simp [itemKey]

/-- Witness for C6: creating a post in a one-community store yields
score 1 and exactly the author's +1 vote. -/
theorem create_seeds_self_upvote_witness :
    (∃ p, ({ posts := [{ id := 4, title := "t", content := "b", author := 2,
                         community := "news", votes := 1, createdAt := 8,
                         isEdited := false }],
             comments := [],
             votes := [{ user := 2, item := 4, itemType := ItemKind.post, value := 1,
                         createdAt := 8 }],
             communities := ["news"] } : DB).posts.find? (postKey 4) = some p ∧
          p.votes = 1) ∧
    votesFor
        { posts := [{ id := 4, title := "t", content := "b", author := 2,
                      community := "news", votes := 1, createdAt := 8, isEdited := false }],
          comments := [],
          votes := [{ user := 2, item := 4, itemType := ItemKind.post, value := 1,
                      createdAt := 8 }],
          communities := ["news"] } ItemKind.post 4
      = [{ user := 2, item := 4, itemType := ItemKind.post, value := 1, createdAt := 8 }] := by
  exact (create_seeds_self_upvote { DB.empty with communities := ["news"] } 2 0 4 8
      "t" "b" "news" (by refine ⟨?_, ?_, ?_⟩ <;> simp [DB.empty])).1
    { posts := [{ id := 4, title := "t", content := "b", author := 2,
                  community := "news", votes := 1, createdAt := 8, isEdited := false }],
      comments := [],
      votes := [{ user := 2, item := 4, itemType := ItemKind.post, value := 1,
                  createdAt := 8 }],
      communities := ["news"] }
    (by decide)

/-- The stored post ids. -/
def postIds (db : DB) : List Nat := db.posts.map Post.id

/-- The stored comment ids. -/
def commentIds (db : DB) : List Nat := db.comments.map Comment.id

/-- The (user, item) key of a Vote — the unique-index key. -/
def voteKeyOf (v : Vote) : Nat × Nat := (v.user, v.item)

/-- The (user, item) key of every stored Vote, in store order. -/
def voteKeys (votes : List Vote) : List (Nat × Nat) :=
  votes.map voteKeyOf

/-- Well-formedness of the store: ids are unique and never shared across
collections (mongoose ObjectIds), every vote's target kind agrees with
the collection its item id lives in, stored vote values lie in the
schema enum [-1, 1], the unique (user, item) index holds, and every
item's denormalized score equals the sum of its Vote values. -/
structure DBInv (db : DB) : Prop where
  postIdsNodup : (postIds db).Nodup
  commentIdsNodup : (commentIds db).Nodup
  idsDisjoint : ∀ i ∈ postIds db, i ∉ commentIds db
  voteKindPost : ∀ v ∈ db.votes, v.item ∈ postIds db → v.itemType = ItemKind.post
  voteKindComment : ∀ v ∈ db.votes, v.item ∈ commentIds db → v.itemType = ItemKind.comment
  voteValue : ∀ v ∈ db.votes, v.value = 1 ∨ v.value = -1
  voteUnique : (voteKeys db.votes).Nodup
  scorePost : ∀ p ∈ db.posts, p.votes = voteSum db ItemKind.post p.id
  scoreComment : ∀ c ∈ db.comments, c.votes = voteSum db ItemKind.comment c.id

/-- Mapping with a function the update preserves is invariant under
`updateFirst`. -/
theorem map_updateFirst {α β : Type} (f : α → β) (p : α → Bool) (g : α → α)
    (hg : ∀ x, f (g x) = f x) (l : List α) :
    (updateFirst p g l).map f = l.map f := by
  induction l with
  | nil => rfl
  | cons x xs ih =>
      by_cases hx : p x <;> simp [updateFirst, hx, hg, ih]

/-- An element of either side of a split list differs (under `f`) from
the pivot when the mapped list has no duplicates. -/
theorem ne_of_nodup_map {α β : Type} {f : α → β} {l₁ l₂ : List α} {w x : α}
    (h : ((l₁ ++ w :: l₂).map f).Nodup) (hx : x ∈ l₁ ∨ x ∈ l₂) : f x ≠ f w := by
  rw [List.map_append, List.map_cons, List.nodup_append] at h
  obtain ⟨h₁, h₂, hdisj⟩ := h
  rcases hx with hx | hx
  · intro he
    exact hdisj (List.mem_map_of_mem f hx) (by simp [he])
  · rw [List.nodup_cons] at h₂
    intro he
    exact h₂.1 (he ▸ List.mem_map_of_mem f hx)

/-- The vote transition changes the target item's vote-value sum by
exactly the returned delta. -/
theorem voteCore_sum_self (votes : List Vote) (u i : Nat) (k : ItemKind) (t : Int) (now : Nat) :
    sumFor (itemKey i k) (voteCore votes u i k t now).2
      = sumFor (itemKey i k) votes + (voteCore votes u i k t now).1 := by
  cases hfind : votes.find? (voteKey u i k) with
  | none =>
      by_cases ht : t = 0
      · rw [ht, voteCore_none_zero votes u i k now hfind]
        simp
      · rw [voteCore_none_insert votes u i k t now hfind ht]
        rw [sumFor_append, sumFor_singleton]
        simp [itemKey]
  | some w =>
      have hkey := List.find?_some hfind
      obtain ⟨hu, hi, hk⟩ := voteKey_iff.mp hkey
      obtain ⟨m₁, m₂, hsplit, hm₁⟩ := find?_split hfind
      have hwkey : itemKey i k w = true := by simp [itemKey, hi, hk]
      by_cases ht : t = 0
      · rw [ht, voteCore_some_zero votes u i k now w hfind]
        rw [hsplit, removeFirst_split hm₁ hkey, sumFor_append, sumFor_append,
          sumFor_cons, hwkey]
        simp
        ring
      · rw [voteCore_some_update votes u i k t now w hfind ht]
        rw [hsplit, updateFirst_split _ hm₁ hkey, sumFor_append, sumFor_append,
          sumFor_cons, sumFor_cons]
        have hwkey2 : itemKey i k { w with value := t } = true := hwkey
        rw [hwkey, hwkey2]
        simp
        ring

/-- The vote transition leaves every other item's vote-value sum
unchanged. -/
theorem voteCore_sum_other (votes : List Vote) (u i : Nat) (k : ItemKind) (t : Int) (now : Nat)
    (j : Nat) (k' : ItemKind) (hne : ¬(j = i ∧ k' = k)) :
    sumFor (itemKey j k') (voteCore votes u i k t now).2 = sumFor (itemKey j k') votes := by
  have hkeyne : ∀ w : Vote, w.item = i → w.itemType = k → itemKey j k' w = false := by
    intro w h1 h2
    simp only [itemKey, decide_eq_false_iff_not]
    rintro ⟨hj, hk'⟩
    exact hne ⟨by rw [← hj, h1], by rw [← hk', h2]⟩
  cases hfind : votes.find? (voteKey u i k) with
  | none =>
      by_cases ht : t = 0
      · rw [ht, voteCore_none_zero votes u i k now hfind]
      · rw [voteCore_none_insert votes u i k t now hfind ht]
        rw [sumFor_append, sumFor_singleton, hkeyne _ rfl rfl]
        simp
  | some w =>
      have hkey := List.find?_some hfind
      obtain ⟨hu, hi, hk⟩ := voteKey_iff.mp hkey
      obtain ⟨m₁, m₂, hsplit, hm₁⟩ := find?_split hfind
      by_cases ht : t = 0
      · rw [ht, voteCore_some_zero votes u i k now w hfind]
        rw [hsplit, removeFirst_split hm₁ hkey, sumFor_append, sumFor_append,
          sumFor_cons, hkeyne w hi hk]
        simp
      · rw [voteCore_some_update votes u i k t now w hfind ht]
        rw [hsplit, updateFirst_split _ hm₁ hkey, sumFor_append, sumFor_append,
          sumFor_cons, sumFor_cons, hkeyne w hi hk,
          hkeyne { w with value := t } hi hk]
        simp

/-- Every record in the store after a vote transition is either an old
record or the caller's record on the target item. -/
theorem voteCore_mem_cases {votes : List Vote} {u i : Nat} {k : ItemKind} {t : Int}
    {now : Nat} {v : Vote} (hv : v ∈ (voteCore votes u i k t now).2) :
    v ∈ votes ∨ (v.user = u ∧ v.item = i ∧ v.itemType = k ∧ v.value = t ∧ t ≠ 0) := by
  cases hfind : votes.find? (voteKey u i k) with
  | none =>
      by_cases ht : t = 0
      · rw [ht, voteCore_none_zero votes u i k now hfind] at hv
        exact Or.inl hv
      · rw [voteCore_none_insert votes u i k t now hfind ht] at hv
        rcases List.mem_append.1 hv with hv | hv
        · exact Or.inl hv
        · rw [List.mem_singleton] at hv
          subst hv
          exact Or.inr ⟨rfl, rfl, rfl, rfl, ht⟩
  | some w =>
      have hkey := List.find?_some hfind
      obtain ⟨hu, hi, hk⟩ := voteKey_iff.mp hkey
      obtain ⟨m₁, m₂, hsplit, hm₁⟩ := find?_split hfind
      by_cases ht : t = 0
      · rw [ht, voteCore_some_zero votes u i k now w hfind] at hv
        rw [hsplit, removeFirst_split hm₁ hkey] at hv
        rw [hsplit]
        rcases List.mem_append.1 hv with hv | hv
        · exact Or.inl (List.mem_append.2 (Or.inl hv))
        · exact Or.inl (List.mem_append.2 (Or.inr (List.mem_cons_of_mem w hv)))
      · rw [voteCore_some_update votes u i k t now w hfind ht] at hv
        rw [hsplit, updateFirst_split _ hm₁ hkey] at hv
        rw [hsplit]
        rcases List.mem_append.1 hv with hv | hv
        · exact Or.inl (List.mem_append.2 (Or.inl hv))
        · rcases List.mem_cons.1 hv with rfl | hv
          · exact Or.inr ⟨hu, hi, hk, rfl, ht⟩
          · exact Or.inl (List.mem_append.2 (Or.inr (List.mem_cons_of_mem w hv)))

/-- The vote transition preserves uniqueness of (user, item) keys,
provided every stored vote on the target item carries the target's
kind. -/
theorem voteCore_keys_nodup {votes : List Vote} {u i : Nat} {k : ItemKind} {t : Int}
    {now : Nat} (hnd : (voteKeys votes).Nodup)
    (hkind : ∀ a ∈ votes, a.item = i → a.itemType = k) :
    (voteKeys (voteCore votes u i k t now).2).Nodup := by
  cases hfind : votes.find? (voteKey u i k) with
  | none =>
      by_cases ht : t = 0
      · rw [ht, voteCore_none_zero votes u i k now hfind]
        exact hnd
      · rw [voteCore_none_insert votes u i k t now hfind ht]
        show (voteKeys (votes ++ [_])).Nodup
        simp only [voteKeys, List.map_append, List.nodup_append] at hnd ⊢
        refine ⟨hnd, by simp, ?_⟩
        intro x hx
        simp only [List.map_cons, List.map_nil, List.mem_singleton]
        intro hxe
        obtain ⟨a, ha, hax⟩ := List.mem_map.1 hx
        rw [hxe] at hax
        have hau : a.user = u := congrArg Prod.fst hax
        have hai : a.item = i := congrArg Prod.snd hax
        have hk : voteKey u i k a = true := by
          rw [voteKey_iff]
          exact ⟨hau, hai, hkind a ha hai⟩
        rw [List.find?_eq_none] at hfind
        exact hfind a ha hk
  | some w =>
      have hkey := List.find?_some hfind
      obtain ⟨m₁, m₂, hsplit, hm₁⟩ := find?_split hfind
      by_cases ht : t = 0
      · rw [ht, voteCore_some_zero votes u i k now w hfind]
        show (voteKeys (removeFirst (voteKey u i k) votes)).Nodup
        rw [hsplit, removeFirst_split hm₁ hkey]
        rw [hsplit] at hnd
        refine List.Nodup.sublist ?_ hnd
        exact List.Sublist.map _ (List.Sublist.append_left (List.sublist_cons_self w m₂) m₁)
      · rw [voteCore_some_update votes u i k t now w hfind ht]
        show (voteKeys (updateFirst (voteKey u i k)
          (fun x => { x with value := t }) votes)).Nodup
        rw [voteKeys, map_updateFirst voteKeyOf (voteKey u i k)
          (fun x => { x with value := t }) (fun x => rfl) votes]
        exact hnd

/-- `sumFor` vanishes when nothing matches. -/
theorem sumFor_eq_zero {q : Vote → Bool} {l : List Vote} (h : ∀ v ∈ l, q v = false) :
    sumFor q l = 0 := by
  rw [sumFor, List.filter_eq_nil_iff.mpr (by intro a ha; simp [h a ha])]
  rfl

/-- Filtering with a predicate implied by the selector leaves `sumFor`
unchanged. -/
theorem sumFor_filter_of_imp (q keep : Vote → Bool) (l : List Vote)
    (h : ∀ v ∈ l, q v = true → keep v = true) :
    sumFor q (l.filter keep) = sumFor q l := by
  induction l with
  | nil => rfl
  | cons x xs ih =>
      have ih' := ih fun v hv => h v (List.mem_cons_of_mem x hv)
      by_cases hx : keep x = true
      · rw [List.filter_cons_of_pos hx, sumFor_cons, sumFor_cons, ih']
      · have hqx : q x = false := by
          rcases Bool.eq_false_or_eq_true (q x) with hq | hq
          · exact absurd (h x (List.mem_cons_self x xs) hq) hx
          · exact hq
        rw [List.filter_cons_of_neg (by simp [hx]), sumFor_cons, hqx, ih']
        simp

/-- A successful post vote preserves store well-formedness. -/
theorem votePost_preserves_inv {db : DB} {u iid : Nat} {t : Int} {now : Nat} {s : Int}
    {db' : DB} (hInv : DBInv db) (h : votePost db u iid t now = VoteOutcome.ok s db') :
    DBInv db' := by
  obtain ⟨hv, post, hfind, hs, hdb⟩ := votePost_ok_inv h
  have hkey : postKey iid post = true := List.find?_some hfind
  have hpid : post.id = iid := by simpa [postKey] using hkey
  have hpostmem : post ∈ db.posts := List.mem_of_find?_eq_some hfind
  have hiid : iid ∈ postIds db := hpid ▸ List.mem_map_of_mem Post.id hpostmem
  have hkind : ∀ a ∈ db.votes, a.item = iid → a.itemType = ItemKind.post := fun a ha hai =>
    hInv.voteKindPost a ha (hai ▸ hiid)
  obtain ⟨l₁, l₂, hsplit, hl₁⟩ := find?_split hfind
  subst hdb
  have hmapids :
      (updateFirst (postKey iid) (fun p => { p with votes := s }) db.posts).map Post.id
        = db.posts.map Post.id :=
    map_updateFirst Post.id (postKey iid) (fun p => { p with votes := s }) (fun x => rfl)
      db.posts
  have hUsplit :
      updateFirst (postKey iid) (fun p => { p with votes := s }) db.posts
        = l₁ ++ { post with votes := s } :: l₂ := by
    rw [hsplit]
    exact updateFirst_split _ hl₁ hkey
  have hnodup : ((l₁ ++ post :: l₂).map Post.id).Nodup := by
    rw [← hsplit]
    exact hInv.postIdsNodup
  refine ⟨?_, ?_, ?_, ?_, ?_, ?_, ?_, ?_, ?_⟩
  · show ((updateFirst (postKey iid) (fun p => { p with votes := s }) db.posts).map
      Post.id).Nodup
    rw [hmapids]
    exact hInv.postIdsNodup
  · exact hInv.commentIdsNodup
  · intro i hi
    have hi' : i ∈ postIds db := by
      have hmem : i ∈ (updateFirst (postKey iid) (fun p => { p with votes := s })
          db.posts).map Post.id := hi
      rwa [hmapids] at hmem
    exact fun hmem => hInv.idsDisjoint i hi' hmem
  · intro v hv' hitem
    have hitem' : v.item ∈ postIds db := by
      have hmem : v.item ∈ (updateFirst (postKey iid) (fun p => { p with votes := s })
          db.posts).map Post.id := hitem
      rwa [hmapids] at hmem
    rcases voteCore_mem_cases hv' with hold | hnew
    · exact hInv.voteKindPost v hold hitem'
    · exact hnew.2.2.1
  · intro v hv' hitem
    rcases voteCore_mem_cases hv' with hold | hnew
    · exact hInv.voteKindComment v hold hitem
    · rw [hnew.2.1] at hitem
      exact absurd hitem (hInv.idsDisjoint iid hiid)
  · intro v hv'
    rcases voteCore_mem_cases hv' with hold | hnew
    · exact hInv.voteValue v hold
    · rcases hv with h1 | h1 | h1
      · left
        rw [hnew.2.2.2.1, h1]
      · exact absurd h1 hnew.2.2.2.2
      · right
        rw [hnew.2.2.2.1, h1]
  · exact voteCore_keys_nodup hInv.voteUnique hkind
  · intro p' hp'
    have hmem : p' ∈ l₁ ++ { post with votes := s } :: l₂ := by
      have hm : p' ∈ updateFirst (postKey iid) (fun p => { p with votes := s })
          db.posts := hp'
      rwa [hUsplit] at hm
    show p'.votes = sumFor (itemKey p'.id ItemKind.post)
      (voteCore db.votes u iid ItemKind.post t now).2
    rcases List.mem_append.1 hmem with hmem | hmem
    · have hne : p'.id ≠ iid := by
        rw [← hpid]
        exact ne_of_nodup_map hnodup (Or.inl hmem)
      have hmemdb : p' ∈ db.posts := by
        rw [hsplit]
        exact List.mem_append.2 (Or.inl hmem)
      rw [voteCore_sum_other db.votes u iid ItemKind.post t now p'.id ItemKind.post
        (by rintro ⟨h1, _⟩; exact hne h1)]
      exact hInv.scorePost p' hmemdb
    · rcases List.mem_cons.1 hmem with rfl | hmem
      · have hid : ({ post with votes := s } : Post).id = iid := hpid
        rw [hid, voteCore_sum_self]
        show s = sumFor (itemKey iid ItemKind.post) db.votes
          + (voteCore db.votes u iid ItemKind.post t now).1
        have hscore : post.votes = sumFor (itemKey iid ItemKind.post) db.votes := by
          have hsc := hInv.scorePost post hpostmem
          rwa [hpid] at hsc
        rw [hs, hscore]
      · have hne : p'.id ≠ iid := by
          rw [← hpid]
          exact ne_of_nodup_map hnodup (Or.inr hmem)
        have hmemdb : p' ∈ db.posts := by
          rw [hsplit]
          exact List.mem_append.2 (Or.inr (List.mem_cons_of_mem post hmem))
        rw [voteCore_sum_other db.votes u iid ItemKind.post t now p'.id ItemKind.post
          (by rintro ⟨h1, _⟩; exact hne h1)]
        exact hInv.scorePost p' hmemdb
  · intro c hc
    show c.votes = sumFor (itemKey c.id ItemKind.comment)
      (voteCore db.votes u iid ItemKind.post t now).2
    rw [voteCore_sum_other db.votes u iid ItemKind.post t now c.id ItemKind.comment
      (by rintro ⟨_, hk2⟩; exact ItemKind.noConfusion hk2)]
    exact hInv.scoreComment c hc

/-- A successful comment vote preserves store well-formedness. -/
theorem voteComment_preserves_inv {db : DB} {u iid : Nat} {t : Int} {now : Nat} {s : Int}
    {db' : DB} (hInv : DBInv db) (h : voteComment db u iid t now = VoteOutcome.ok s db') :
    DBInv db' := by
  obtain ⟨hv, c, hfind, hs, hdb⟩ := voteComment_ok_inv h
  have hkey : commentKey iid c = true := List.find?_some hfind
  have hcid : c.id = iid := by simpa [commentKey] using hkey
  have hcmem : c ∈ db.comments := List.mem_of_find?_eq_some hfind
  have hiid : iid ∈ commentIds db := hcid ▸ List.mem_map_of_mem Comment.id hcmem
  have hkind : ∀ a ∈ db.votes, a.item = iid → a.itemType = ItemKind.comment := fun a ha hai =>
    hInv.voteKindComment a ha (hai ▸ hiid)
  obtain ⟨l₁, l₂, hsplit, hl₁⟩ := find?_split hfind
  subst hdb
  have hmapids :
      (updateFirst (commentKey iid) (fun x => { x with votes := s }) db.comments).map
          Comment.id
        = db.comments.map Comment.id :=
    map_updateFirst Comment.id (commentKey iid) (fun x => { x with votes := s }) (fun x => rfl)
      db.comments
  have hUsplit :
      updateFirst (commentKey iid) (fun x => { x with votes := s }) db.comments
        = l₁ ++ { c with votes := s } :: l₂ := by
    rw [hsplit]
    exact updateFirst_split _ hl₁ hkey
  have hnodup : ((l₁ ++ c :: l₂).map Comment.id).Nodup := by
    rw [← hsplit]
    exact hInv.commentIdsNodup
  refine ⟨?_, ?_, ?_, ?_, ?_, ?_, ?_, ?_, ?_⟩
  · exact hInv.postIdsNodup
  · show ((updateFirst (commentKey iid) (fun x => { x with votes := s })
      db.comments).map Comment.id).Nodup
    rw [hmapids]
    exact hInv.commentIdsNodup
  · intro i hi hmem
    have hmem' : i ∈ commentIds db := by
      have hm : i ∈ (updateFirst (commentKey iid) (fun x => { x with votes := s })
          db.comments).map Comment.id := hmem
      rwa [hmapids] at hm
    exact hInv.idsDisjoint i hi hmem'
  · intro v hv' hitem
    rcases voteCore_mem_cases hv' with hold | hnew
    · exact hInv.voteKindPost v hold hitem
    · rw [hnew.2.1] at hitem
      exact absurd hiid (hInv.idsDisjoint iid hitem)
  · intro v hv' hitem
    have hitem' : v.item ∈ commentIds db := by
      have hm : v.item ∈ (updateFirst (commentKey iid) (fun x => { x with votes := s })
          db.comments).map Comment.id := hitem
      rwa [hmapids] at hm
    rcases voteCore_mem_cases hv' with hold | hnew
    · exact hInv.voteKindComment v hold hitem'
    · exact hnew.2.2.1
  · intro v hv'
    rcases voteCore_mem_cases hv' with hold | hnew
    · exact hInv.voteValue v hold
    · rcases hv with h1 | h1 | h1
      · left
        rw [hnew.2.2.2.1, h1]
      · exact absurd h1 hnew.2.2.2.2
      · right
        rw [hnew.2.2.2.1, h1]
  · exact voteCore_keys_nodup hInv.voteUnique hkind
  · intro p' hp'
    show p'.votes = sumFor (itemKey p'.id ItemKind.post)
      (voteCore db.votes u iid ItemKind.comment t now).2
    rw [voteCore_sum_other db.votes u iid ItemKind.comment t now p'.id ItemKind.post
      (by rintro ⟨_, hk2⟩; exact ItemKind.noConfusion hk2)]
    exact hInv.scorePost p' hp'
  · intro c' hc'
    have hmem : c' ∈ l₁ ++ { c with votes := s } :: l₂ := by
      have hm : c' ∈ updateFirst (commentKey iid) (fun x => { x with votes := s })
          db.comments := hc'
      rwa [hUsplit] at hm
    show c'.votes = sumFor (itemKey c'.id ItemKind.comment)
      (voteCore db.votes u iid ItemKind.comment t now).2
    rcases List.mem_append.1 hmem with hmem | hmem
    · have hne : c'.id ≠ iid := by
        rw [← hcid]
        exact ne_of_nodup_map hnodup (Or.inl hmem)
      have hmemdb : c' ∈ db.comments := by
        rw [hsplit]
        exact List.mem_append.2 (Or.inl hmem)
      rw [voteCore_sum_other db.votes u iid ItemKind.comment t now c'.id ItemKind.comment
        (by rintro ⟨h1, _⟩; exact hne h1)]
      exact hInv.scoreComment c' hmemdb
    · rcases List.mem_cons.1 hmem with rfl | hmem
      · have hid : ({ c with votes := s } : Comment).id = iid := hcid
        rw [hid, voteCore_sum_self]
        show s = sumFor (itemKey iid ItemKind.comment) db.votes
          + (voteCore db.votes u iid ItemKind.comment t now).1
        have hscore : c.votes = sumFor (itemKey iid ItemKind.comment) db.votes := by
          have hsc := hInv.scoreComment c hcmem
          rwa [hcid] at hsc
        rw [hs, hscore]
      · have hne : c'.id ≠ iid := by
          rw [← hcid]
          exact ne_of_nodup_map hnodup (Or.inr hmem)
        have hmemdb : c' ∈ db.comments := by
          rw [hsplit]
          exact List.mem_append.2 (Or.inr (List.mem_cons_of_mem c hmem))
        rw [voteCore_sum_other db.votes u iid ItemKind.comment t now c'.id ItemKind.comment
          (by rintro ⟨h1, _⟩; exact hne h1)]
        exact hInv.scoreComment c' hmemdb

/-- Inversion of a successful post creation. -/
theorem createPost_ok_inv {db : DB} {u newId now : Nat} {title content comm : String}
    {db' : DB} (h : createPost db u title content comm newId now = CrudOutcome.ok db') :
    db.communities.contains comm = true ∧
    db' = { db with
            posts := updateFirst (postKey newId) (fun p => { p with votes := 1 })
              (db.posts ++ [{ id := newId, title := title, content := content,
                              author := u, community := comm, votes := 0,
                              createdAt := now, isEdited := false }]),
            votes := db.votes ++ [{ user := u, item := newId,
                                    itemType := ItemKind.post, value := 1,
                                    createdAt := now }] } := by
  by_cases hc : db.communities.contains comm
  · unfold createPost at h
    rw [if_neg (not_not_intro hc)] at h
    exact ⟨hc, (CrudOutcome.ok.inj h).symm⟩
  · unfold createPost at h
    rw [if_pos hc] at h
    exact absurd h (by simp)

/-- Inversion of a successful comment creation. -/
theorem createComment_ok_inv {db : DB} {u pid newId now : Nat} {content : String}
    {db' : DB} (h : createComment db u pid content newId now = CrudOutcome.ok db') :
    (∃ parent, db.posts.find? (postKey pid) = some parent) ∧
    db' = { db with
            comments := db.comments ++ [{ id := newId, content := content, author := u,
                                          post := pid, votes := 1, createdAt := now,
                                          isEdited := false }],
            votes := db.votes ++ [{ user := u, item := newId,
                                    itemType := ItemKind.comment, value := 1,
                                    createdAt := now }] } := by
  cases hfind : db.posts.find? (postKey pid) with
  | none =>
      unfold createComment at h
      rw [hfind] at h
      exact absurd h (by simp)
  | some parent =>
      unfold createComment at h
      rw [hfind] at h
      exact ⟨⟨parent, rfl⟩, (CrudOutcome.ok.inj h).symm⟩

/-- Splitting membership of a mapped snoc. -/
theorem mem_map_append_singleton {α β : Type} (f : α → β) {l : List α} {x : α} {b : β}
    (h : b ∈ (l ++ [x]).map f) : b ∈ l.map f ∨ b = f x := by
  rw [List.map_append] at h
  rcases List.mem_append.1 h with h | h
  · exact Or.inl h
  · rw [List.map_cons, List.map_nil, List.mem_singleton] at h
    exact Or.inr h

/-- `sumFor` over a singleton whose item differs. -/
theorem sumFor_singleton_ne (j : Nat) (k : ItemKind) (v : Vote) (h : v.item ≠ j) :
    sumFor (itemKey j k) [v] = 0 := by
  apply sumFor_eq_zero
  intro w hw
  rw [List.mem_singleton] at hw
  subst hw
  simp only [itemKey, decide_eq_false_iff_not]
  rintro ⟨h1, _⟩
  exact h h1

/-- `sumFor` over a singleton whose kind differs. -/
theorem sumFor_singleton_kind_ne (j : Nat) (k : ItemKind) (v : Vote) (h : v.itemType ≠ k) :
    sumFor (itemKey j k) [v] = 0 := by
  apply sumFor_eq_zero
  intro w hw
  rw [List.mem_singleton] at hw
  subst hw
  simp only [itemKey, decide_eq_false_iff_not]
  rintro ⟨_, h2⟩
  exact h h2

/-- `sumFor` over a matching singleton. -/
theorem sumFor_singleton_self (j : Nat) (k : ItemKind) (v : Vote) (h1 : v.item = j)
    (h2 : v.itemType = k) : sumFor (itemKey j k) [v] = v.value := by
  rw [sumFor_singleton, if_pos]
  simp [itemKey, h1, h2]

/-- A successful post creation (with its author self-upvote) preserves
store well-formedness, given freshness of the generated id. -/
theorem createPost_preserves_inv {db : DB} {u newId now : Nat} {title content comm : String}
    {db' : DB} (hInv : DBInv db) (hfresh : FreshId db newId)
    (h : createPost db u title content comm newId now = CrudOutcome.ok db') : DBInv db' := by
  obtain ⟨hc, hdb⟩ := createPost_ok_inv h
  subst hdb
  have hpre : ∀ p ∈ db.posts, postKey newId p = false := fun p hp => by
    simp [postKey, hfresh.1 p hp]
  have hU : updateFirst (postKey newId) (fun p => { p with votes := 1 })
      (db.posts ++ [{ id := newId, title := title, content := content, author := u,
                      community := comm, votes := 0, createdAt := now,
                      isEdited := false }])
      = db.posts ++ [{ id := newId, title := title, content := content, author := u,
                       community := comm, votes := 1, createdAt := now,
                       isEdited := false }] := by
    rw [updateFirst_append _ [_] hpre, updateFirst_cons_pos _ _ (by simp [postKey])]
  rw [hU]
  set p1 : Post := { id := newId, title := title, content := content, author := u,
                     community := comm, votes := 1, createdAt := now,
                     isEdited := false } with hp1
  set nv : Vote := { user := u, item := newId, itemType := ItemKind.post, value := 1,
                     createdAt := now } with hnv
  have hp1id : p1.id = newId := by rw [hp1]
  have hnvitem : nv.item = newId := by rw [hnv]
  have hnvkind : nv.itemType = ItemKind.post := by rw [hnv]
  have hnvval : nv.value = 1 := by rw [hnv]
  have hnotin : newId ∉ db.posts.map Post.id := by
    intro hmem
    obtain ⟨p, hp, hpe⟩ := List.mem_map.1 hmem
    exact hfresh.1 p hp hpe
  have hnotinc : newId ∉ commentIds db := by
    intro hmem
    obtain ⟨c, hcm, hce⟩ := List.mem_map.1 hmem
    exact hfresh.2.1 c hcm hce
  refine ⟨?_, ?_, ?_, ?_, ?_, ?_, ?_, ?_, ?_⟩
  · show ((db.posts ++ [p1]).map Post.id).Nodup
    rw [List.map_append, List.nodup_append]
    refine ⟨hInv.postIdsNodup, by simp, ?_⟩
    intro a ha
    simp only [List.map_cons, List.map_nil, List.mem_singleton]
    intro hae
    have hae2 : a = newId := by simpa [hp1] using hae
    rw [hae2] at ha
    exact hnotin ha
  · exact hInv.commentIdsNodup
  · intro i hi
    rcases mem_map_append_singleton Post.id hi with hi2 | hi2
    · exact hInv.idsDisjoint i hi2
    · have hi3 : i = newId := by simpa [hp1] using hi2
      rw [hi3]
      exact hnotinc
  · intro v hv hitem
    rcases List.mem_append.1 hv with hv | hv
    · rcases mem_map_append_singleton Post.id hitem with hit | hit
      · exact hInv.voteKindPost v hv hit
      · have hit2 : v.item = newId := by simpa [hp1] using hit
        exact absurd hit2 (hfresh.2.2 v hv)
    · rw [List.mem_singleton] at hv
      rw [hv]
  · intro v hv hitem
    rcases List.mem_append.1 hv with hv | hv
    · exact hInv.voteKindComment v hv hitem
    · rw [List.mem_singleton] at hv
      rw [hv, hnvitem] at hitem
      exact absurd hitem hnotinc
  · intro v hv
    rcases List.mem_append.1 hv with hv | hv
    · exact hInv.voteValue v hv
    · rw [List.mem_singleton] at hv
      rw [hv]
      exact Or.inl hnvval
  · show (voteKeys (db.votes ++ [nv])).Nodup
    simp only [voteKeys, List.map_append, List.nodup_append]
    refine ⟨hInv.voteUnique, by simp, ?_⟩
    intro a ha
    simp only [List.map_cons, List.map_nil, List.mem_singleton]
    intro hae
    obtain ⟨w, hw, hwe⟩ := List.mem_map.1 ha
    rw [hae] at hwe
    have hwi : w.item = nv.item := congrArg Prod.snd hwe
    rw [hnvitem] at hwi
    exact hfresh.2.2 w hw hwi
  · intro p2 hp2
    rcases List.mem_append.1 hp2 with hp3 | hp3
    · have hne : p2.id ≠ newId := hfresh.1 p2 hp3
      show p2.votes = sumFor (itemKey p2.id ItemKind.post) (db.votes ++ [nv])
      rw [sumFor_append, sumFor_singleton_ne p2.id ItemKind.post nv
        (by rw [hnvitem]; exact fun he => hne he.symm), add_zero]
      exact hInv.scorePost p2 hp3
    · rw [List.mem_singleton] at hp3
      subst hp3
      show p1.votes = sumFor (itemKey p1.id ItemKind.post) (db.votes ++ [nv])
      have hz : sumFor (itemKey p1.id ItemKind.post) db.votes = 0 := by
        apply sumFor_eq_zero
        intro v hv
        simp only [itemKey, decide_eq_false_iff_not]
        rintro ⟨h1, _⟩
        have h2 : v.item = newId := by simpa [hp1] using h1
        exact hfresh.2.2 v hv h2
      rw [sumFor_append, hz,
        sumFor_singleton_self p1.id ItemKind.post nv (by simp [hnv, hp1]) hnvkind,
        hnvval, zero_add]
  · intro c hc
    show c.votes = sumFor (itemKey c.id ItemKind.comment) (db.votes ++ [nv])
    rw [sumFor_append, sumFor_singleton_kind_ne c.id ItemKind.comment nv
      (by rw [hnvkind]; decide), add_zero]
    exact hInv.scoreComment c hc

/-- A successful comment creation (with its author self-upvote)
preserves store well-formedness, given freshness of the generated id. -/
theorem createComment_preserves_inv {db : DB} {u pid newId now : Nat} {content : String}
    {db' : DB} (hInv : DBInv db) (hfresh : FreshId db newId)
    (h : createComment db u pid content newId now = CrudOutcome.ok db') : DBInv db' := by
  obtain ⟨⟨parent, hparent⟩, hdb⟩ := createComment_ok_inv h
  subst hdb
  set c1 : Comment := { id := newId, content := content, author := u, post := pid,
                        votes := 1, createdAt := now, isEdited := false } with hc1
  set nv : Vote := { user := u, item := newId, itemType := ItemKind.comment, value := 1,
                     createdAt := now } with hnv
  have hc1id : c1.id = newId := by rw [hc1]
  have hnvitem : nv.item = newId := by rw [hnv]
  have hnvkind : nv.itemType = ItemKind.comment := by rw [hnv]
  have hnvval : nv.value = 1 := by rw [hnv]
  have hnotin : newId ∉ db.comments.map Comment.id := by
    intro hmem
    obtain ⟨c, hcm, hce⟩ := List.mem_map.1 hmem
    exact hfresh.2.1 c hcm hce
  have hnotinp : newId ∉ postIds db := by
    intro hmem
    obtain ⟨p, hp, hpe⟩ := List.mem_map.1 hmem
    exact hfresh.1 p hp hpe
  refine ⟨?_, ?_, ?_, ?_, ?_, ?_, ?_, ?_, ?_⟩
  · exact hInv.postIdsNodup
  · show ((db.comments ++ [c1]).map Comment.id).Nodup
    rw [List.map_append, List.nodup_append]
    refine ⟨hInv.commentIdsNodup, by simp, ?_⟩
    intro a ha
    simp only [List.map_cons, List.map_nil, List.mem_singleton]
    intro hae
    have hae2 : a = newId := by simpa [hc1] using hae
    rw [hae2] at ha
    exact hnotin ha
  · intro i hi hmem
    rcases mem_map_append_singleton Comment.id hmem with hm | hm
    · exact hInv.idsDisjoint i hi hm
    · have hm2 : i = newId := by simpa [hc1] using hm
      rw [hm2] at hi
      exact hnotinp hi
  · intro v hv hitem
    rcases List.mem_append.1 hv with hv | hv
    · exact hInv.voteKindPost v hv hitem
    · rw [List.mem_singleton] at hv
      rw [hv, hnvitem] at hitem
      exact absurd hitem hnotinp
  · intro v hv hitem
    rcases List.mem_append.1 hv with hv | hv
    · rcases mem_map_append_singleton Comment.id hitem with hit | hit
      · exact hInv.voteKindComment v hv hit
      · have hit2 : v.item = newId := by simpa [hc1] using hit
        exact absurd hit2 (hfresh.2.2 v hv)
    · rw [List.mem_singleton] at hv
      rw [hv]
  · intro v hv
    rcases List.mem_append.1 hv with hv | hv
    · exact hInv.voteValue v hv
    · rw [List.mem_singleton] at hv
      rw [hv]
      exact Or.inl hnvval
  · show (voteKeys (db.votes ++ [nv])).Nodup
    simp only [voteKeys, List.map_append, List.nodup_append]
    refine ⟨hInv.voteUnique, by simp, ?_⟩
    intro a ha
    simp only [List.map_cons, List.map_nil, List.mem_singleton]
    intro hae
    obtain ⟨w, hw, hwe⟩ := List.mem_map.1 ha
    rw [hae] at hwe
    have hwi : w.item = nv.item := congrArg Prod.snd hwe
    rw [hnvitem] at hwi
    exact hfresh.2.2 w hw hwi
  · intro p2 hp2
    show p2.votes = sumFor (itemKey p2.id ItemKind.post) (db.votes ++ [nv])
    rw [sumFor_append, sumFor_singleton_kind_ne p2.id ItemKind.post nv
      (by rw [hnvkind]; decide), add_zero]
    exact hInv.scorePost p2 hp2
  · intro c2 hc2
    rcases List.mem_append.1 hc2 with hc3 | hc3
    · have hne : c2.id ≠ newId := hfresh.2.1 c2 hc3
      show c2.votes = sumFor (itemKey c2.id ItemKind.comment) (db.votes ++ [nv])
      rw [sumFor_append, sumFor_singleton_ne c2.id ItemKind.comment nv
        (by rw [hnvitem]; exact fun he => hne he.symm), add_zero]
      exact hInv.scoreComment c2 hc3
    · rw [List.mem_singleton] at hc3
      subst hc3
      show c1.votes = sumFor (itemKey c1.id ItemKind.comment) (db.votes ++ [nv])
      have hz : sumFor (itemKey c1.id ItemKind.comment) db.votes = 0 := by
        apply sumFor_eq_zero
        intro v hv
        simp only [itemKey, decide_eq_false_iff_not]
        rintro ⟨h1, _⟩
        have h2 : v.item = newId := by simpa [hc1] using h1
        exact hfresh.2.2 v hv h2
      rw [sumFor_append, hz,
        sumFor_singleton_self c1.id ItemKind.comment nv (by simp [hnv, hc1]) hnvkind,
        hnvval, zero_add]

/-- Inversion of a successful post deletion. -/
theorem deletePost_ok_inv {db : DB} {u pid : Nat} {db' : DB}
    (h : deletePost db u pid = CrudOutcome.ok db') :
    ∃ post, db.posts.find? (postKey pid) = some post ∧ post.author = u ∧
      db' = { db with
              posts := removeFirst (postKey pid) db.posts,
              comments := db.comments.filter (fun c => decide (¬ c.post = pid)),
              votes := db.votes.filter
                (fun v => decide (¬(v.item = pid ∧ v.itemType = ItemKind.post))) } := by
  cases hfind : db.posts.find? (postKey pid) with
  | none =>
      have he : deletePost db u pid = CrudOutcome.error CrudError.notFound db := by
        unfold deletePost
        rw [hfind]
      rw [he] at h
      exact absurd h (by simp)
  | some post =>
      by_cases hauth : post.author = u
      · have he : deletePost db u pid = CrudOutcome.ok
            { db with
              posts := removeFirst (postKey pid) db.posts,
              comments := db.comments.filter (fun c => decide (¬ c.post = pid)),
              votes := db.votes.filter
                (fun v => decide (¬(v.item = pid ∧ v.itemType = ItemKind.post))) } := by
          unfold deletePost
          rw [hfind]
          dsimp only
          rw [if_neg (not_not_intro hauth)]
        rw [he] at h
        exact ⟨post, rfl, hauth, (CrudOutcome.ok.inj h).symm⟩
      · have he : deletePost db u pid
            = CrudOutcome.error CrudError.notAuthorized db := by
          unfold deletePost
          rw [hfind]
          dsimp only
          rw [if_pos hauth]
        rw [he] at h
        exact absurd h (by simp)

/-- Inversion of a successful comment deletion. -/
theorem deleteComment_ok_inv {db : DB} {u cid : Nat} {db' : DB}
    (h : deleteComment db u cid = CrudOutcome.ok db') :
    ∃ c, db.comments.find? (commentKey cid) = some c ∧ c.author = u ∧
      db' = { db with
              comments := removeFirst (commentKey cid) db.comments,
              votes := db.votes.filter
                (fun v => decide (¬(v.item = cid ∧ v.itemType = ItemKind.comment))) } := by
  cases hfind : db.comments.find? (commentKey cid) with
  | none =>
      have he : deleteComment db u cid = CrudOutcome.error CrudError.notFound db := by
        unfold deleteComment
        rw [hfind]
      rw [he] at h
      exact absurd h (by simp)
  | some c =>
      by_cases hauth : c.author = u
      · have he : deleteComment db u cid = CrudOutcome.ok
            { db with
              comments := removeFirst (commentKey cid) db.comments,
              votes := db.votes.filter
                (fun v => decide (¬(v.item = cid ∧ v.itemType = ItemKind.comment))) } := by
          unfold deleteComment
          rw [hfind]
          dsimp only
          rw [if_neg (not_not_intro hauth)]
        rw [he] at h
        exact ⟨c, rfl, hauth, (CrudOutcome.ok.inj h).symm⟩
      · have he : deleteComment db u cid
            = CrudOutcome.error CrudError.notAuthorized db := by
          unfold deleteComment
          rw [hfind]
          dsimp only
          rw [if_pos hauth]
        rw [he] at h
        exact absurd h (by simp)

/-- A successful post deletion preserves store well-formedness. -/
theorem deletePost_preserves_inv {db : DB} {u pid : Nat} {db' : DB}
    (hInv : DBInv db) (h : deletePost db u pid = CrudOutcome.ok db') : DBInv db' := by
  obtain ⟨post, hfind, hauth, hdb⟩ := deletePost_ok_inv h
  have hkey : postKey pid post = true := List.find?_some hfind
  have hpid : post.id = pid := by simpa [postKey] using hkey
  obtain ⟨l₁, l₂, hsplit, hl₁⟩ := find?_split hfind
  subst hdb
  have hrm : removeFirst (postKey pid) db.posts = l₁ ++ l₂ := by
    rw [hsplit]
    exact removeFirst_split hl₁ hkey
  rw [hrm]
  have hsubP : ∀ p ∈ l₁ ++ l₂, p ∈ db.posts := by
    intro p hp
    rw [hsplit]
    rcases List.mem_append.1 hp with hp | hp
    · exact List.mem_append.2 (Or.inl hp)
    · exact List.mem_append.2 (Or.inr (List.mem_cons_of_mem post hp))
  have hsubC : ∀ c ∈ db.comments.filter (fun c => decide (¬ c.post = pid)),
      c ∈ db.comments := fun c hc => List.mem_of_mem_filter hc
  have hsubV : ∀ v ∈ db.votes.filter
      (fun v => decide (¬(v.item = pid ∧ v.itemType = ItemKind.post))),
      v ∈ db.votes := fun v hv => List.mem_of_mem_filter hv
  have hnodup : ((l₁ ++ post :: l₂).map Post.id).Nodup := by
    rw [← hsplit]
    exact hInv.postIdsNodup
  have hidsubP : ∀ i, i ∈ (l₁ ++ l₂).map Post.id → i ∈ postIds db := by
    intro i hi
    obtain ⟨p, hp, he⟩ := List.mem_map.1 hi
    exact he ▸ List.mem_map_of_mem Post.id (hsubP p hp)
  have hidsubC : ∀ i,
      i ∈ (db.comments.filter (fun c => decide (¬ c.post = pid))).map Comment.id →
      i ∈ commentIds db := by
    intro i hi
    obtain ⟨c, hc, he⟩ := List.mem_map.1 hi
    exact he ▸ List.mem_map_of_mem Comment.id (hsubC c hc)
  refine ⟨?_, ?_, ?_, ?_, ?_, ?_, ?_, ?_, ?_⟩
  · refine List.Nodup.sublist ?_ hnodup
    exact List.Sublist.map _ (List.Sublist.append_left (List.sublist_cons_self post l₂) l₁)
  · refine List.Nodup.sublist ?_ hInv.commentIdsNodup
    exact List.Sublist.map _ (List.filter_sublist _)
  · intro i hi hmem
    exact hInv.idsDisjoint i (hidsubP i hi) (hidsubC i hmem)
  · intro v hv hitem
    exact hInv.voteKindPost v (hsubV v hv) (hidsubP _ hitem)
  · intro v hv hitem
    exact hInv.voteKindComment v (hsubV v hv) (hidsubC _ hitem)
  · intro v hv
    exact hInv.voteValue v (hsubV v hv)
  · refine List.Nodup.sublist ?_ hInv.voteUnique
    exact List.Sublist.map _ (List.filter_sublist _)
  · intro p' hp'
    have hpmem : p' ∈ db.posts := hsubP p' hp'
    have hne : p'.id ≠ pid := by
      rw [← hpid]
      exact ne_of_nodup_map hnodup (List.mem_append.1 hp')
    have himp : ∀ v ∈ db.votes, itemKey p'.id ItemKind.post v = true →
        decide (¬(v.item = pid ∧ v.itemType = ItemKind.post)) = true := by
      intro v hv hq
      simp only [itemKey, decide_eq_true_eq] at hq
      simp only [decide_eq_true_eq]
      rintro ⟨hvp, _⟩
      exact hne (by rw [← hq.1]; exact hvp)
    show p'.votes = sumFor (itemKey p'.id ItemKind.post)
      (db.votes.filter (fun v => decide (¬(v.item = pid ∧ v.itemType = ItemKind.post))))
    rw [sumFor_filter_of_imp _ _ _ himp]
    exact hInv.scorePost p' hpmem
  · intro c' hc'
    have hcm : c' ∈ db.comments := hsubC c' hc'
    have himp : ∀ v ∈ db.votes, itemKey c'.id ItemKind.comment v = true →
        decide (¬(v.item = pid ∧ v.itemType = ItemKind.post)) = true := by
      intro v hv hq
      simp only [itemKey, decide_eq_true_eq] at hq
      simp only [decide_eq_true_eq]
      rintro ⟨_, hk⟩
      rw [hq.2] at hk
      exact ItemKind.noConfusion hk
    show c'.votes = sumFor (itemKey c'.id ItemKind.comment)
      (db.votes.filter (fun v => decide (¬(v.item = pid ∧ v.itemType = ItemKind.post))))
    rw [sumFor_filter_of_imp _ _ _ himp]
    exact hInv.scoreComment c' hcm

/-- A successful comment deletion preserves store well-formedness. -/
theorem deleteComment_preserves_inv {db : DB} {u cid : Nat} {db' : DB}
    (hInv : DBInv db) (h : deleteComment db u cid = CrudOutcome.ok db') : DBInv db' := by
  obtain ⟨c, hfind, hauth, hdb⟩ := deleteComment_ok_inv h
  have hkey : commentKey cid c = true := List.find?_some hfind
  have hcid : c.id = cid := by simpa [commentKey] using hkey
  obtain ⟨l₁, l₂, hsplit, hl₁⟩ := find?_split hfind
  subst hdb
  have hrm : removeFirst (commentKey cid) db.comments = l₁ ++ l₂ := by
    rw [hsplit]
    exact removeFirst_split hl₁ hkey
  rw [hrm]
  have hsubC : ∀ x ∈ l₁ ++ l₂, x ∈ db.comments := by
    intro x hx
    rw [hsplit]
    rcases List.mem_append.1 hx with hx | hx
    · exact List.mem_append.2 (Or.inl hx)
    · exact List.mem_append.2 (Or.inr (List.mem_cons_of_mem c hx))
  have hsubV : ∀ v ∈ db.votes.filter
      (fun v => decide (¬(v.item = cid ∧ v.itemType = ItemKind.comment))),
      v ∈ db.votes := fun v hv => List.mem_of_mem_filter hv
  have hnodup : ((l₁ ++ c :: l₂).map Comment.id).Nodup := by
    rw [← hsplit]
    exact hInv.commentIdsNodup
  have hidsubC : ∀ i, i ∈ (l₁ ++ l₂).map Comment.id → i ∈ commentIds db := by
    intro i hi
    obtain ⟨x, hx, he⟩ := List.mem_map.1 hi
    exact he ▸ List.mem_map_of_mem Comment.id (hsubC x hx)
  refine ⟨?_, ?_, ?_, ?_, ?_, ?_, ?_, ?_, ?_⟩
  · exact hInv.postIdsNodup
  · refine List.Nodup.sublist ?_ hnodup
    exact List.Sublist.map _ (List.Sublist.append_left (List.sublist_cons_self c l₂) l₁)
  · intro i hi hmem
    exact hInv.idsDisjoint i hi (hidsubC i hmem)
  · intro v hv hitem
    exact hInv.voteKindPost v (hsubV v hv) hitem
  · intro v hv hitem
    exact hInv.voteKindComment v (hsubV v hv) (hidsubC _ hitem)
  · intro v hv
    exact hInv.voteValue v (hsubV v hv)
  · refine List.Nodup.sublist ?_ hInv.voteUnique
    exact List.Sublist.map _ (List.filter_sublist _)
  · intro p' hp'
    have himp : ∀ v ∈ db.votes, itemKey p'.id ItemKind.post v = true →
        decide (¬(v.item = cid ∧ v.itemType = ItemKind.comment)) = true := by
      intro v hv hq
      simp only [itemKey, decide_eq_true_eq] at hq
      simp only [decide_eq_true_eq]
      rintro ⟨_, hk⟩
      rw [hq.2] at hk
      exact ItemKind.noConfusion hk
    show p'.votes = sumFor (itemKey p'.id ItemKind.post)
      (db.votes.filter (fun v => decide (¬(v.item = cid ∧ v.itemType = ItemKind.comment))))
    rw [sumFor_filter_of_imp _ _ _ himp]
    exact hInv.scorePost p' hp'
  · intro c' hc'
    have hcm : c' ∈ db.comments := hsubC c' hc'
    have hne : c'.id ≠ cid := by
      rw [← hcid]
      exact ne_of_nodup_map hnodup (List.mem_append.1 hc')
    have himp : ∀ v ∈ db.votes, itemKey c'.id ItemKind.comment v = true →
        decide (¬(v.item = cid ∧ v.itemType = ItemKind.comment)) = true := by
      intro v hv hq
      simp only [itemKey, decide_eq_true_eq] at hq
      simp only [decide_eq_true_eq]
      rintro ⟨hvp, _⟩
      exact hne (by rw [← hq.1]; exact hvp)
    show c'.votes = sumFor (itemKey c'.id ItemKind.comment)
      (db.votes.filter (fun v => decide (¬(v.item = cid ∧ v.itemType = ItemKind.comment))))
    rw [sumFor_filter_of_imp _ _ _ himp]
    exact hInv.scoreComment c' hcm

/-- One successful operation of the subsystem: community creation, item
creation (with the author self-upvote and a fresh object id), a vote
endpoint call, or item deletion. -/
inductive Step : DB → DB → Prop where
  | community (db : DB) (name : String) :
      Step db { db with communities := db.communities ++ [name] }
  | cpost (db : DB) (u : Nat) (title content comm : String) (newId now : Nat) (db' : DB)
      (hfresh : FreshId db newId)
      (h : createPost db u title content comm newId now = CrudOutcome.ok db') : Step db db'
  | ccomment (db : DB) (u pid : Nat) (content : String) (newId now : Nat) (db' : DB)
      (hfresh : FreshId db newId)
      (h : createComment db u pid content newId now = CrudOutcome.ok db') : Step db db'
  | vpost (db : DB) (u pid : Nat) (t : Int) (now : Nat) (s : Int) (db' : DB)
      (h : votePost db u pid t now = VoteOutcome.ok s db') : Step db db'
  | vcomment (db : DB) (u cid : Nat) (t : Int) (now : Nat) (s : Int) (db' : DB)
      (h : voteComment db u cid t now = VoteOutcome.ok s db') : Step db db'
  | dpost (db : DB) (u pid : Nat) (db' : DB)
      (h : deletePost db u pid = CrudOutcome.ok db') : Step db db'
  | dcomment (db : DB) (u cid : Nat) (db' : DB)
      (h : deleteComment db u cid = CrudOutcome.ok db') : Step db db'

/-- Reachability by successful subsystem operations. -/
def Reachable (db₀ db : DB) : Prop := Relation.ReflTransGen Step db₀ db

/-- Every successful operation preserves store well-formedness. -/
theorem step_preserves_inv {db db' : DB} (hInv : DBInv db) (hstep : Step db db') :
    DBInv db' := by
  cases hstep with
  | community name =>
      exact ⟨hInv.postIdsNodup, hInv.commentIdsNodup, hInv.idsDisjoint,
        hInv.voteKindPost, hInv.voteKindComment, hInv.voteValue, hInv.voteUnique,
        hInv.scorePost, hInv.scoreComment⟩
  | cpost u title content comm newId now db' hfresh h =>
      exact createPost_preserves_inv hInv hfresh h
  | ccomment u pid content newId now db' hfresh h =>
      exact createComment_preserves_inv hInv hfresh h
  | vpost u pid t now s db' h =>
      exact votePost_preserves_inv hInv h
  | vcomment u cid t now s db' h =>
      exact voteComment_preserves_inv hInv h
  | dpost u pid db' h =>
      exact deletePost_preserves_inv hInv h
  | dcomment u cid db' h =>
      exact deleteComment_preserves_inv hInv h

/-- Well-formedness propagates along any sequence of successful
operations. -/
theorem reachable_inv {db₀ db : DB} (h₀ : DBInv db₀) (h : Reachable db₀ db) : DBInv db := by
  induction h with
  | refl => exact h₀
  | tail _ hs ih => exact step_preserves_inv ih hs

/-- The empty store is well-formed. -/
theorem DBInv_empty : DBInv DB.empty := by
  constructor <;> simp [postIds, commentIds, voteKeys, DB.empty]

/-- Claim C1: after every successful operation of the subsystem — item
creation (which seeds the author self-upvote), a vote-endpoint call, or
item deletion — every stored item's denormalized score field equals the
sum of the values of all Vote records whose item id and kind reference
it, provided the store was well-formed before the operation. -/
theorem score_eq_vote_sum_after_step {db db' : DB} (hInv : DBInv db)
    (hstep : Step db db') :
    (∀ p ∈ db'.posts, p.votes = voteSum db' ItemKind.post p.id) ∧
    (∀ c ∈ db'.comments, c.votes = voteSum db' ItemKind.comment c.id) :=
  ⟨(step_preserves_inv hInv hstep).scorePost,
   (step_preserves_inv hInv hstep).scoreComment⟩

/-- Witness for C1: a second user upvotes a freshly created post; in the
resulting store every score equals its vote sum. -/
theorem score_eq_vote_sum_after_step_witness :
    (∀ p ∈ ({ posts := [{ id := 1, title := "t", content := "b", author := 0,
                          community := "c", votes := 2, createdAt := 0,
                          isEdited := false }],
              comments := [],
              votes := [{ user := 0, item := 1, itemType := ItemKind.post, value := 1,
                          createdAt := 0 },
                        { user := 2, item := 1, itemType := ItemKind.post, value := 1,
                          createdAt := 5 }],
              communities := ["c"] } : DB).posts,
        p.votes = voteSum { posts := [{ id := 1, title := "t", content := "b", author := 0,
                                        community := "c", votes := 2, createdAt := 0,
                                        isEdited := false }],
                            comments := [],
                            votes := [{ user := 0, item := 1, itemType := ItemKind.post,
                                        value := 1, createdAt := 0 },
                                      { user := 2, item := 1, itemType := ItemKind.post,
                                        value := 1, createdAt := 5 }],
                            communities := ["c"] } ItemKind.post p.id) ∧
    (∀ c ∈ ({ posts := [{ id := 1, title := "t", content := "b", author := 0,
                          community := "c", votes := 2, createdAt := 0,
                          isEdited := false }],
              comments := [],
              votes := [{ user := 0, item := 1, itemType := ItemKind.post, value := 1,
                          createdAt := 0 },
                        { user := 2, item := 1, itemType := ItemKind.post, value := 1,
                          createdAt := 5 }],
              communities := ["c"] } : DB).comments,
        c.votes = voteSum { posts := [{ id := 1, title := "t", content := "b", author := 0,
                                        community := "c", votes := 2, createdAt := 0,
                                        isEdited := false }],
                            comments := [],
                            votes := [{ user := 0, item := 1, itemType := ItemKind.post,
                                        value := 1, createdAt := 0 },
                                      { user := 2, item := 1, itemType := ItemKind.post,
                                        value := 1, createdAt := 5 }],
                            communities := ["c"] } ItemKind.comment c.id) :=
  score_eq_vote_sum_after_step (by constructor <;> decide)
    (Step.vpost { posts := [{ id := 1, title := "t", content := "b", author := 0,
                              community := "c", votes := 1, createdAt := 0,
                              isEdited := false }],
                  comments := [],
                  votes := [{ user := 0, item := 1, itemType := ItemKind.post, value := 1,
                              createdAt := 0 }],
                  communities := ["c"] } 2 1 1 5 2 _ (by decide))

/-- Claim C8: in every store reachable by successful subsystem
operations from a well-formed start, every stored Vote has value +1 or
-1 (no zero vote is ever stored; absence of a record is the zero state)
and the (user, item) keys of the stored Votes contain no duplicate — at
most one Vote per (user, item) pair.  Since this holds along every
operation sequence, every operation preserves both properties. -/
theorem vote_store_wf {db₀ db : DB} (h₀ : DBInv db₀) (h : Reachable db₀ db) :
    (∀ v ∈ db.votes, v.value = 1 ∨ v.value = -1) ∧ (voteKeys db.votes).Nodup :=
  ⟨(reachable_inv h₀ h).voteValue, (reachable_inv h₀ h).voteUnique⟩

/-- Witness for C8: the store obtained from the empty store by creating
a community, creating a post (author self-upvote), and a second user's
downvote satisfies both vote-store invariants. -/
theorem vote_store_wf_witness :
    (∀ v ∈ ({ posts := [{ id := 1, title := "t", content := "b", author := 0,
                          community := "c", votes := 0, createdAt := 0,
                          isEdited := false }],
              comments := [],
              votes := [{ user := 0, item := 1, itemType := ItemKind.post, value := 1,
                          createdAt := 0 },
                        { user := 2, item := 1, itemType := ItemKind.post, value := -1,
                          createdAt := 5 }],
              communities := ["c"] } : DB).votes,
        v.value = 1 ∨ v.value = -1) ∧
    (voteKeys ({ posts := [{ id := 1, title := "t", content := "b", author := 0,
                             community := "c", votes := 0, createdAt := 0,
                             isEdited := false }],
                 comments := [],
                 votes := [{ user := 0, item := 1, itemType := ItemKind.post, value := 1,
                             createdAt := 0 },
                           { user := 2, item := 1, itemType := ItemKind.post, value := -1,
                             createdAt := 5 }],
                 communities := ["c"] } : DB).votes).Nodup :=
  vote_store_wf (by constructor <;> decide)
    (Relation.ReflTransGen.tail Relation.ReflTransGen.refl
      (Step.vpost { posts := [{ id := 1, title := "t", content := "b", author := 0,
                                community := "c", votes := 1, createdAt := 0,
                                isEdited := false }],
                    comments := [],
                    votes := [{ user := 0, item := 1, itemType := ItemKind.post,
                                value := 1, createdAt := 0 }],
                    communities := ["c"] } 2 1 (-1) 5 0 _ (by decide)))

/-- Claim C3 (evidence of the divergence): deleting a post removes its
child comments and the votes whose itemType is 'post' on the post id,
but the handler never touches the votes of the deleted child comments —
`Vote.deleteMany` is called with `itemType: 'post'` only — so a Vote
record referencing a deleted comment remains in the store. -/
theorem deletePost_leaves_child_comment_votes :
    deletePost
        { posts := [{ id := 1, title := "t", content := "b", author := 0,
                      community := "c", votes := 1, createdAt := 0, isEdited := false }],
          comments := [{ id := 2, content := "x", author := 0, post := 1, votes := 1,
                         createdAt := 1, isEdited := false }],
          votes := [{ user := 0, item := 1, itemType := ItemKind.post, value := 1,
                      createdAt := 0 },
                    { user := 0, item := 2, itemType := ItemKind.comment, value := 1,
                      createdAt := 1 }],
          communities := ["c"] } 0 1
      = CrudOutcome.ok
          { posts := [],
            comments := [],
            votes := [{ user := 0, item := 2, itemType := ItemKind.comment, value := 1,
                        createdAt := 1 }],
            communities := ["c"] } ∧
    ({ posts := [],
       comments := [],
       votes := [{ user := 0, item := 2, itemType := ItemKind.comment, value := 1,
                   createdAt := 1 }],
       communities := ["c"] } : DB).comments.find? (commentKey 2) = none ∧
    votesFor { posts := [],
               comments := [],
               votes := [{ user := 0, item := 2, itemType := ItemKind.comment, value := 1,
                           createdAt := 1 }],
               communities := ["c"] } ItemKind.comment 2
      = [{ user := 0, item := 2, itemType := ItemKind.comment, value := 1,
           createdAt := 1 }] := by
  decide

/-- The response a vote request eventually sends: the JSON `votes` value
or an error status. -/
inductive Resp where
  | okVotes (n : Int)
  | failure (e : VoteError)
deriving DecidableEq, Repr

/-- The per-request state of one in-flight execution of the post vote
handler, cut at its `await` points: `pc` is the next atomic step,
`localVotes` the score cached in the `post` document read at step 0,
`found` the result of the `Vote.findOne` read at step 1, `voteChange`
the delta computed at step 2. -/
structure HandlerState where
  pc : Nat
  localVotes : Int
  found : Option Vote
  voteChange : Int
  resp : Option Resp
deriving DecidableEq, Repr

/-- Initial per-request state. -/
def HandlerState.init : HandlerState :=
  { pc := 0, localVotes := 0, found := none, voteChange := 0, resp := none }

/-- One atomic step of the post vote handler (posts.js lines 377-439),
each `await`ed store operation being one step:
step 0 — validate the type and `Post.findById` (caching the document);
step 1 — `Vote.findOne`;
step 2 — the vote-store mutation: `vote.remove()` / `vote.save()`, or
the insert `newVote.save()`, which the store rejects when the unique
(user, item) index of src/models/Vote.js is violated — the rejection
propagates to the handler's generic catch, which replies 500;
step 3 — `post.votes += voteChange; await post.save()`, a write-back of
the document cached at step 0, then the response. -/
def handlerStep (u pid : Nat) (t : Int) (now : Nat) (db : DB) (h : HandlerState) :
    DB × HandlerState :=
  match h.pc with
  | 0 =>
      if ¬(t = 1 ∨ t = 0 ∨ t = -1) then
        (db, { h with pc := 4, resp := some (Resp.failure VoteError.invalidVoteType) })
      else
        match db.posts.find? (postKey pid) with
        | none =>
            (db, { h with pc := 4, resp := some (Resp.failure VoteError.itemNotFound) })
        | some post => (db, { h with pc := 1, localVotes := post.votes })
  | 1 => (db, { h with pc := 2, found := db.votes.find? (voteKey u pid ItemKind.post) })
  | 2 =>
      match h.found with
      | some vote =>
          if t = 0 then
            ({ db with votes := removeFirst (voteKey u pid ItemKind.post) db.votes },
             { h with pc := 3, voteChange := t - vote.value })
          else
            ({ db with
               votes := updateFirst (voteKey u pid ItemKind.post)
                 (fun v => { v with value := t }) db.votes },
             { h with pc := 3, voteChange := t - vote.value })
      | none =>
          if t ≠ 0 then
            if db.votes.any (fun v => decide (v.user = u ∧ v.item = pid)) then
              (db, { h with pc := 4, resp := some (Resp.failure VoteError.serverError) })
            else
              ({ db with
                 votes := db.votes ++
                   [{ user := u, item := pid, itemType := ItemKind.post, value := t,
                      createdAt := now }] },
               { h with pc := 3, voteChange := t })
          else (db, { h with pc := 3, voteChange := 0 })
  | 3 =>
      ({ db with
         posts := updateFirst (postKey pid)
           (fun p => { p with votes := h.localVotes + h.voteChange }) db.posts },
       { h with pc := 4, resp := some (Resp.okVotes (h.localVotes + h.voteChange)) })
  | _ => (db, h)

/-- The inputs of one request to POST /api/posts/:id/vote. -/
structure Req where
  u : Nat
  pid : Nat
  t : Int
  now : Nat
deriving DecidableEq, Repr

/-- Run two concurrent vote requests under a schedule: `true` lets the
first request take its next atomic step, `false` the second. -/
def runTwo (r1 r2 : Req) : List Bool → DB × HandlerState × HandlerState →
    DB × HandlerState × HandlerState
  | [], st => st
  | b :: rest, (db, h1, h2) =>
      if b then
        let x := handlerStep r1.u r1.pid r1.t r1.now db h1
        runTwo r1 r2 rest (x.1, x.2, h2)
      else
        let x := handlerStep r2.u r2.pid r2.t r2.now db h2
        runTwo r1 r2 rest (x.1, h1, x.2)

/-- A well-formed one-post store: the post (id 1, score 1) and the
author's self-upvote. -/
def raceDb : DB :=
  { posts := [{ id := 1, title := "t", content := "b", author := 0, community := "c",
                votes := 1, createdAt := 0, isEdited := false }],
    comments := [],
    votes := [{ user := 0, item := 1, itemType := ItemKind.post, value := 1,
                createdAt := 0 }],
    communities := ["c"] }

example : DBInv raceDb := by constructor <;> decide

/-- Claim C7 (evidence of the divergence): two concurrent upvotes from
distinct users on the shared post interleave so that both handlers read
the cached score 1, both insert their Vote, and both write back
1 + 1 = 2; the run completes (both respond with score 2), the store
holds three votes of value +1, yet the final score is 2, not the sum 3
of the final vote values — the cached read-modify-write loses an
update and breaks the score-equals-sum invariant. -/
theorem concurrent_votes_lose_update :
    (runTwo { u := 1, pid := 1, t := 1, now := 5 } { u := 2, pid := 1, t := 1, now := 6 }
        [true, false, true, false, true, false, true, false]
        (raceDb, HandlerState.init, HandlerState.init)).2.1.resp
      = some (Resp.okVotes 2) ∧
    (runTwo { u := 1, pid := 1, t := 1, now := 5 } { u := 2, pid := 1, t := 1, now := 6 }
        [true, false, true, false, true, false, true, false]
        (raceDb, HandlerState.init, HandlerState.init)).2.2.resp
      = some (Resp.okVotes 2) ∧
    (runTwo { u := 1, pid := 1, t := 1, now := 5 } { u := 2, pid := 1, t := 1, now := 6 }
        [true, false, true, false, true, false, true, false]
        (raceDb, HandlerState.init, HandlerState.init)).1.posts.map Post.votes = [2] ∧
    voteSum (runTwo { u := 1, pid := 1, t := 1, now := 5 } { u := 2, pid := 1, t := 1, now := 6 }
        [true, false, true, false, true, false, true, false]
        (raceDb, HandlerState.init, HandlerState.init)).1 ItemKind.post 1 = 3 ∧
    (2 : Int) ≠ 3 := by
  decide

/-- Claim C4 (evidence of the divergence): two concurrent upvotes from
the same user race on the insert; the second `newVote.save()` violates
the unique (user, item) index, the rejection falls into the handler's
generic catch, and the request terminates with the 500 server error —
there is no internal retry, and the duplicate-key failure is surfaced to
the caller. -/
theorem duplicate_vote_race_surfaces_error :
    (runTwo { u := 1, pid := 1, t := 1, now := 5 } { u := 1, pid := 1, t := 1, now := 6 }
        [true, false, true, false, true, false, true]
        (raceDb, HandlerState.init, HandlerState.init)).2.2.pc = 4 ∧
    (runTwo { u := 1, pid := 1, t := 1, now := 5 } { u := 1, pid := 1, t := 1, now := 6 }
        [true, false, true, false, true, false, true]
        (raceDb, HandlerState.init, HandlerState.init)).2.2.resp
      = some (Resp.failure VoteError.serverError) ∧
    (runTwo { u := 1, pid := 1, t := 1, now := 5 } { u := 1, pid := 1, t := 1, now := 6 }
        [true, false, true, false, true, false, true]
        (raceDb, HandlerState.init, HandlerState.init)).2.1.resp
      = some (Resp.okVotes 2) := by
  decide

/-- Running the four atomic steps back to back with no interleaving. -/
def runSeq (u pid : Nat) (t : Int) (now : Nat) (db : DB) : DB × HandlerState :=
  let s0 := handlerStep u pid t now db HandlerState.init
  let s1 := handlerStep u pid t now s0.1 s0.2
  let s2 := handlerStep u pid t now s1.1 s1.2
  handlerStep u pid t now s2.1 s2.2

/-- Fidelity of the small-step model: on a well-formed store, an
uninterleaved run of the four atomic steps produces exactly the store
and response of `votePost`. -/
theorem runSeq_agrees_votePost {db : DB} (hInv : DBInv db) (u pid : Nat) (t : Int)
    (now : Nat) :
    (∀ s db', votePost db u pid t now = VoteOutcome.ok s db' →
        (runSeq u pid t now db).1 = db' ∧
        (runSeq u pid t now db).2.resp = some (Resp.okVotes s)) ∧
    (∀ e db', votePost db u pid t now = VoteOutcome.error e db' →
        (runSeq u pid t now db).1 = db ∧
        (runSeq u pid t now db).2.resp = some (Resp.failure e)) := by
  by_cases hv : t = 1 ∨ t = 0 ∨ t = -1
  · cases hfindp : db.posts.find? (postKey pid) with
    | none =>
        constructor
        · intro s db' h
          rw [votePost_notFound db u pid t now hv hfindp] at h
          exact absurd h (by simp)
        · intro e db' h
          rw [votePost_notFound db u pid t now hv hfindp] at h
          obtain ⟨he, hdb⟩ := VoteOutcome.error.inj h
          subst he
          subst hdb
          rcases hv with rfl | rfl | rfl <;>
            constructor <;>
              simp [runSeq, handlerStep, HandlerState.init, hfindp]
    | some post =>
        have hiid : pid ∈ postIds db := by
          have hpm : post ∈ db.posts := List.mem_of_find?_eq_some hfindp
          have hpidk : post.id = pid := by simpa [postKey] using List.find?_some hfindp
          exact hpidk ▸ List.mem_map_of_mem Post.id hpm
        constructor
        · intro s db' h
          obtain ⟨_, post2, hfind2, hs, hdb⟩ := votePost_ok_inv h
          rw [hfindp] at hfind2
          obtain rfl := (Option.some.inj hfind2).symm
          subst hdb
          cases hfindv : db.votes.find? (voteKey u pid ItemKind.post) with
          | some vote =>
              rcases hv with rfl | rfl | rfl
              · rw [voteCore_some_update db.votes u pid ItemKind.post 1 now vote hfindv
                  (by decide)] at hs
                subst hs
                constructor <;>
                  simp [runSeq, handlerStep, HandlerState.init, hfindp, hfindv,
                    voteCore_some_update db.votes u pid ItemKind.post 1 now vote hfindv
                      (by decide)]
              · rw [voteCore_some_zero db.votes u pid ItemKind.post now vote hfindv] at hs
                subst hs
                constructor <;>
                  simp [runSeq, handlerStep, HandlerState.init, hfindp, hfindv,
                    voteCore_some_zero db.votes u pid ItemKind.post now vote hfindv]
              · rw [voteCore_some_update db.votes u pid ItemKind.post (-1) now vote hfindv
                  (by decide)] at hs
                subst hs
                constructor <;>
                  simp [runSeq, handlerStep, HandlerState.init, hfindp, hfindv,
                    voteCore_some_update db.votes u pid ItemKind.post (-1) now vote hfindv
                      (by decide)]
          | none =>
              have hnoex : ¬ ∃ x ∈ db.votes, x.user = u ∧ x.item = pid := by
                rintro ⟨v, hvv, h1, h2⟩
                have hkindv := hInv.voteKindPost v hvv (h2 ▸ hiid)
                have hk : voteKey u pid ItemKind.post v = true :=
                  voteKey_iff.mpr ⟨h1, h2, hkindv⟩
                rw [List.find?_eq_none] at hfindv
                exact hfindv v hvv hk
              rcases hv with rfl | rfl | rfl
              · rw [voteCore_none_insert db.votes u pid ItemKind.post 1 now hfindv
                  (by decide)] at hs
                subst hs
                constructor <;>
                  simp [runSeq, handlerStep, HandlerState.init, hfindp, hfindv, hnoex,
                    voteCore_none_insert db.votes u pid ItemKind.post 1 now hfindv
                      (by decide)]
              · rw [voteCore_none_zero db.votes u pid ItemKind.post now hfindv] at hs
                subst hs
                constructor <;>
                  simp [runSeq, handlerStep, HandlerState.init, hfindp, hfindv,
                    voteCore_none_zero db.votes u pid ItemKind.post now hfindv]
              · rw [voteCore_none_insert db.votes u pid ItemKind.post (-1) now hfindv
                  (by decide)] at hs
                subst hs
                constructor <;>
                  simp [runSeq, handlerStep, HandlerState.init, hfindp, hfindv, hnoex,
                    voteCore_none_insert db.votes u pid ItemKind.post (-1) now hfindv
                      (by decide)]
        · intro e db' h
          rw [votePost_some db u pid t now post hv hfindp] at h
          exact absurd h (by simp)
  · constructor
    · intro s db' h
      rw [votePost_invalid db u pid t now hv] at h
      exact absurd h (by simp)
    · intro e db' h
      rw [votePost_invalid db u pid t now hv] at h
      obtain ⟨he, hdb⟩ := VoteOutcome.error.inj h
      subst he
      subst hdb
      constructor <;> simp [runSeq, handlerStep, HandlerState.init, hv]

example :
    votePost { DB.empty with
        posts := [{ id := 1, title := "t", content := "c", author := 0,
                    community := "x", votes := 0, createdAt := 0, isEdited := false }] }
      7 1 1 3
    = VoteOutcome.ok 1
        { DB.empty with
          posts := [{ id := 1, title := "t", content := "c", author := 0,
                      community := "x", votes := 1, createdAt := 0, isEdited := false }],
          votes := [{ user := 7, item := 1, itemType := ItemKind.post, value := 1,
                      createdAt := 3 }] } := by
  decide
